import Mathlib

/-!
# ParseFlow — shallow embedding and verification

A shallow embedding of the email ingestion / classification / AI-extraction
pipeline of the ParseFlow repository, together with proofs about its claims.

Conventions used throughout:
* JavaScript strings are modelled by `String`; `s.includes(t)` is `strContains`,
  `s.toLowerCase()` is `strLower`, `s.trim()` is `strTrim`,
  `s.split(c)` is `strSplitOn`, `s.substring(a, b)` is `jsSubstring`
  (all implemented on the character list so that concrete runs reduce
  inside the kernel).
* JavaScript numbers are modelled by `JsNum`, exact fractions without
  normalization (every constant and operation in the source is exact, so this
  coincides with the float semantics on all values that arise); `JsNum.toRat`
  maps them to `ℚ`, and the theorems are stated over `ℚ` through it.
* `x || y` on a possibly-absent string (where `""` is falsy) is `jsOrElse`.
* A TypeScript function that can `throw` is modelled as returning
  `Except String α`; external effects (the IMAP fetch, the AI HTTP calls,
  `JSON.parse`, filesystem writes) are modelled by environment records whose
  fields carry the outcome the external world produced.
-/

namespace ParseFlow

/-! ## Exact JavaScript numbers -/

/-- An exact fraction with positive denominator, kept unnormalized so that
all arithmetic reduces inside the kernel. -/
structure JsNum where
  num : Int
  den : Nat
  den_pos : 0 < den

instance (n : Nat) : OfNat JsNum n := ⟨⟨n, 1, Nat.one_pos⟩⟩

instance : NatCast JsNum := ⟨fun n => ⟨n, 1, Nat.one_pos⟩⟩

instance : OfScientific JsNum :=
  ⟨fun m s e =>
    if s then ⟨m, 10 ^ e, Nat.pos_pow_of_pos e (by norm_num)⟩
    else ⟨m * 10 ^ e, 1, Nat.one_pos⟩⟩

instance : Add JsNum :=
  ⟨fun a b => ⟨a.num * b.den + b.num * a.den, a.den * b.den,
    Nat.mul_pos a.den_pos b.den_pos⟩⟩

instance : Mul JsNum :=
  ⟨fun a b => ⟨a.num * b.num, a.den * b.den, Nat.mul_pos a.den_pos b.den_pos⟩⟩

/-- Division; division by zero gives an arbitrary value (never exercised:
the only division in the source is by a positive field count). -/
def JsNum.divide (a b : JsNum) : JsNum :=
  if h : b.num = 0 then ⟨0, 1, Nat.one_pos⟩
  else
    ⟨a.num * b.den * (if b.num < 0 then -1 else 1), a.den * b.num.natAbs,
      Nat.mul_pos a.den_pos (Int.natAbs_pos.mpr h)⟩

instance : Div JsNum := ⟨JsNum.divide⟩

instance : LT JsNum := ⟨fun a b => a.num * (b.den : Int) < b.num * (a.den : Int)⟩

instance : LE JsNum := ⟨fun a b => a.num * (b.den : Int) ≤ b.num * (a.den : Int)⟩

instance (a b : JsNum) : Decidable (a < b) :=
  inferInstanceAs (Decidable (a.num * (b.den : Int) < b.num * (a.den : Int)))

instance (a b : JsNum) : Decidable (a ≤ b) :=
  inferInstanceAs (Decidable (a.num * (b.den : Int) ≤ b.num * (a.den : Int)))

instance : BEq JsNum :=
  ⟨fun a b => decide (a.num * (b.den : Int) = b.num * (a.den : Int))⟩

instance : Min JsNum := ⟨fun a b => if a ≤ b then a else b⟩

instance : Max JsNum := ⟨fun a b => if a ≤ b then b else a⟩

/-- The rational value of a `JsNum`. -/
def JsNum.toRat (a : JsNum) : ℚ := (a.num : ℚ) / (a.den : ℚ)

theorem JsNum.den_ne_zero (a : JsNum) : ((a.den : ℚ)) ≠ 0 := by
  exact_mod_cast Nat.pos_iff_ne_zero.mp a.den_pos

theorem JsNum.den_cast_pos (a : JsNum) : (0 : ℚ) < (a.den : ℚ) := by
  exact_mod_cast a.den_pos

theorem JsNum.toRat_ofNat (n : Nat) : (OfNat.ofNat n : JsNum).toRat = n := by
  show ((n : Int) : ℚ) / ((1 : Nat) : ℚ) = n
  norm_num

theorem JsNum.toRat_natCast (n : Nat) : ((n : JsNum)).toRat = n := by
  show ((n : Int) : ℚ) / ((1 : Nat) : ℚ) = n
  norm_num

theorem JsNum.toRat_add (a b : JsNum) : (a + b).toRat = a.toRat + b.toRat := by
  have ha := a.den_ne_zero
  have hb := b.den_ne_zero
  show ((a.num * b.den + b.num * a.den : Int) : ℚ) / ((a.den * b.den : Nat) : ℚ) = _
  rw [toRat, toRat]
  push_cast
  field_simp

theorem JsNum.toRat_mul (a b : JsNum) : (a * b).toRat = a.toRat * b.toRat := by
  have ha := a.den_ne_zero
  have hb := b.den_ne_zero
  show ((a.num * b.num : Int) : ℚ) / ((a.den * b.den : Nat) : ℚ) = _
  rw [toRat, toRat]
  push_cast
  field_simp

theorem JsNum.toRat_div (a b : JsNum) (hb : 0 < b.num) :
    (a / b).toRat = a.toRat / b.toRat := by
  have ha := a.den_ne_zero
  have hbd := b.den_ne_zero
  have hb0 : b.num ≠ 0 := by omega
  have hnum : ((b.num : ℚ)) ≠ 0 := by exact_mod_cast hb0
  show (JsNum.divide a b).toRat = _
  rw [JsNum.divide, dif_neg hb0]
  have hlt : ¬ b.num < 0 := by omega
  rw [if_neg hlt]
  have habs : ((b.num.natAbs : ℚ)) = (b.num : ℚ) := by
    rw [Int.cast_natAbs]
    exact_mod_cast abs_of_pos hb
  show ((a.num * b.den * 1 : Int) : ℚ) / ((a.den * b.num.natAbs : Nat) : ℚ) = _
  rw [toRat, toRat]
  push_cast
  rw [habs]
  field_simp

theorem JsNum.le_iff (a b : JsNum) : a ≤ b ↔ a.toRat ≤ b.toRat := by
  show a.num * (b.den : Int) ≤ b.num * (a.den : Int) ↔ _
  rw [JsNum.toRat, JsNum.toRat,
    div_le_div_iff₀ a.den_cast_pos b.den_cast_pos]
  constructor
  · intro h; exact_mod_cast h
  · intro h; exact_mod_cast h

theorem JsNum.lt_iff (a b : JsNum) : a < b ↔ a.toRat < b.toRat := by
  show a.num * (b.den : Int) < b.num * (a.den : Int) ↔ _
  rw [JsNum.toRat, JsNum.toRat,
    div_lt_div_iff₀ a.den_cast_pos b.den_cast_pos]
  constructor
  · intro h; exact_mod_cast h
  · intro h; exact_mod_cast h

theorem JsNum.toRat_min (a b : JsNum) : (min a b).toRat = min a.toRat b.toRat := by
  show (if a ≤ b then a else b).toRat = _
  by_cases h : a ≤ b
  · rw [if_pos h, min_eq_left ((JsNum.le_iff a b).mp h)]
  · rw [if_neg h]
    have := (JsNum.le_iff a b).not.mp h
    rw [min_eq_right (le_of_not_le this)]

theorem JsNum.toRat_max (a b : JsNum) : (max a b).toRat = max a.toRat b.toRat := by
  show (if a ≤ b then b else a).toRat = _
  by_cases h : a ≤ b
  · rw [if_pos h, max_eq_right ((JsNum.le_iff a b).mp h)]
  · rw [if_neg h]
    have := (JsNum.le_iff a b).not.mp h
    rw [max_eq_left (le_of_not_le this)]

theorem JsNum.beq_iff (a b : JsNum) : (a == b) = true ↔ a.toRat = b.toRat := by
  show decide (a.num * (b.den : Int) = b.num * (a.den : Int)) = true ↔ _
  rw [decide_eq_true_iff, JsNum.toRat, JsNum.toRat,
    div_eq_div_iff a.den_ne_zero b.den_ne_zero]
  constructor
  · intro h; exact_mod_cast h
  · intro h; exact_mod_cast h

/-! ## JavaScript string primitives -/

/-- JavaScript `s.toLowerCase()` (ASCII, as all modelled inputs are). -/
def strLower (s : String) : String :=
  String.mk (s.data.map Char.toLower)

/-- Split a character list on a separator character. -/
def splitOnChar (sep : Char) : List Char → List (List Char)
  | [] => [[]]
  | c :: rest =>
      if c = sep then [] :: splitOnChar sep rest
      else
        match splitOnChar sep rest with
        | seg :: segs => (c :: seg) :: segs
        | [] => [[c]]

/-- JavaScript `s.split(sep)` for the single-character separators the source
uses (`','` and `' '`). -/
def strSplitOn (s : String) (sep : Char) : List String :=
  (splitOnChar sep s.data).map String.mk

/-- JavaScript `s.trim()`. -/
def strTrim (s : String) : String :=
  String.mk (((s.data.dropWhile Char.isWhitespace).reverse.dropWhile
    Char.isWhitespace).reverse)

/-- Substring containment on character lists (`hay.includes(pat)` semantics:
the empty pattern is contained in everything). -/
def charsContain (hay pat : List Char) : Bool :=
  match hay with
  | [] => pat.isEmpty
  | _ :: rest => pat.isPrefixOf hay || charsContain rest pat

/-- JavaScript `s.includes(pat)`. -/
def strContains (s pat : String) : Bool :=
  charsContain s.data pat.data

/-- JavaScript `opt || dflt` where `opt` is an optional string and the empty
string is falsy. -/
def jsOrElse (opt : Option String) (dflt : String) : String :=
  match opt with
  | some v => if v.isEmpty then dflt else v
  | none => dflt

/-- JavaScript `s.substring(start, stop)` restricted to the uses in the source
(ASCII bodies; modelled on the character list). -/
def jsSubstring (s : String) (start stop : Nat) : String :=
  String.mk ((s.data.drop start).take (stop - start))

/-! ## A JSON value model

`JSON.parse` itself is an external library routine; its outcome on a given
reply is supplied by the environment as an optional `Json` value (`none`
models a parse exception).  Truthiness matches JavaScript. -/

inductive Json where
  | null
  | bool (b : Bool)
  | num (n : JsNum)
  | str (s : String)
  | arr (items : List Json)
  | obj (fields : List (String × Json))

/-- Object field lookup (`parsed[field]`, `none` = `undefined`). -/
def Json.lookup (j : Json) (key : String) : Option Json :=
  match j with
  | .obj fields => fields.lookup key
  | _ => none

/-- JavaScript truthiness of a possibly-absent value. -/
def Json.truthy : Option Json → Bool
  | none => false
  | some .null => false
  | some (.bool b) => b
  | some (.num n) => n != (0 : JsNum)
  | some (.str s) => !s.isEmpty
  | some (.arr _) => true
  | some (.obj _) => true

/-! ## Data model (src: lib/types.ts) -/

inductive EmailStatus where
  | unprocessed | processing | processed | error
deriving Repr, DecidableEq

inductive Classification where
  | inbox | whitelist | blacklist | pending | unsorted
deriving Repr, DecidableEq

inductive ParsedType where
  | order | estimate | other
deriving Repr, DecidableEq

structure ParsedInfo where
  type : ParsedType
  data : Option Json
  confidence : JsNum

structure Attachment where
  filename : String
  contentType : String
  size : Nat
  hasData : Bool
deriving Repr, DecidableEq

structure Email where
  id : String
  subject : String
  fromField : String
  toField : String
  date : String
  body : String
  attachments : List Attachment
  parsed : Option ParsedInfo
  status : EmailStatus
  classification : Classification
  senderEmail : Option String

inductive RuleType where
  | whitelist | blacklist
deriving Repr, DecidableEq

structure Rule where
  id : String
  type : RuleType
  pattern : String
  description : Option String
  active : Bool
deriving Repr, DecidableEq

inductive AiProvider where
  | google | ollama
deriving Repr, DecidableEq

/-- The slice of `Settings` the modelled code reads.  `whitelistMap` /
`blacklistMap` are the ad-hoc `_whitelistMap` / `_blacklistMap` sets of
lowercase patterns attached by the optimized job path (a JS `Set<string>`
modelled as a list consulted with exact membership). -/
structure Settings where
  username : String
  useAiProcessing : Bool
  aiProvider : AiProvider
  googleApiKey : Option String
  orderKeywords : Option String
  estimateKeywords : Option String
  classificationInstructions : Option String
  whitelistMap : Option (List String)
  blacklistMap : Option (List String)
deriving Repr, DecidableEq

/-! ## Sender address extraction (src: email-service.ts, email-file-service.ts) -/

/-- The regex `/<([^>]+)>/`: the first `<` that is followed by a non-empty run
of non-`>` characters and then `>`; returns the captured run. -/
def extractAngle : List Char → Option (List Char)
  | [] => none
  | '<' :: rest =>
      let inner := rest.takeWhile (fun c => c ≠ '>')
      if inner.length ≥ 1 ∧ (rest.drop inner.length).head? = some '>' then
        some inner
      else
        extractAngle rest
  | _ :: rest => extractAngle rest

/-- `extractEmailAddress` of `email-service.ts`: take the address inside
`<...>`, else the first whitespace-separated word containing `@`, else the
whole field — lowercased in every case. -/
def extractEmailAddress (fromField : String) : String :=
  match extractAngle fromField.data with
  | some inner => strLower (String.mk inner)
  | none =>
      let parts := strSplitOn fromField ' '
      match parts.find? (fun part => strContains part "@") with
      | some emailLike => strLower emailLike
      | none => strLower fromField

/-- `extractEmailFromFrom` of `email-file-service.ts` is character-for-character
the same helper. -/
def extractEmailFromFrom (fromField : String) : String :=
  extractEmailAddress fromField

/-- `isWeTransferEmail` (src: email-file-service.ts). -/
def isWeTransferEmail (email : Email) : Bool :=
  let senderEmail := jsOrElse email.senderEmail (extractEmailFromFrom email.fromField)
  strContains senderEmail "wetransfer.com" ||
  strContains senderEmail "we.tl" ||
  strContains (strLower email.fromField) "wetransfer"

/-! ## Rule Matcher (src: classification-service.ts, checkWhitelistStatus) -/

inductive Route where
  | inbox | unsorted | skip
deriving Repr, DecidableEq

/-- Exact-match test of the fallback scan's first loop. -/
def ruleExact (senderEmail : String) (r : Rule) : Bool :=
  strLower r.pattern == senderEmail

/-- Symmetric substring test of the fallback scan's second loop. -/
def ruleSubstr (senderEmail : String) (r : Rule) : Bool :=
  strContains senderEmail (strLower r.pattern) || strContains (strLower r.pattern) senderEmail

/-- A rule "matches" a sender when either loop of the fallback scan would
accept it. -/
def ruleMatches (r : Rule) (senderEmail : String) : Bool :=
  ruleExact senderEmail r || ruleSubstr senderEmail r

/-- The fallback branch of `checkWhitelistStatus`: `getRules()` from the data
store (whose throwing is modelled by `.error` and absorbed by the function's
`catch` into `'unsorted'`), an exact-match loop, then a symmetric-substring
loop — each loop taking the first matching rule in list order, with no
`active` check. -/
def fallbackScan (senderEmail : String)
    (rulesFetch : Except String (List Rule)) : Route :=
  match rulesFetch with
  | .error _ => .unsorted
  | .ok rules =>
      match rules.find? (ruleExact senderEmail) with
      | some r =>
          match r.type with
          | .whitelist => .inbox
          | .blacklist => .skip
      | none =>
          match rules.find? (ruleSubstr senderEmail) with
          | some r =>
              match r.type with
              | .whitelist => .inbox
              | .blacklist => .skip
          | none => .unsorted

/-- `checkWhitelistStatus`.  The `rulesFetch` argument is the outcome of the
fallback path's `getRules()` data-store call. -/
def checkWhitelistStatus (email : Email) (settings : Settings)
    (rulesFetch : Except String (List Rule)) : Route :=
  let senderEmail := strLower (email.senderEmail.getD "")
  match settings.whitelistMap, settings.blacklistMap with
  | some whitelistMap, some blacklistMap =>
      if blacklistMap.contains senderEmail then .skip
      else if whitelistMap.contains senderEmail then .inbox
      else .unsorted
  | _, _ => fallbackScan senderEmail rulesFetch

/-- True when `checkWhitelistStatus` takes the fallback (linear-scan) branch. -/
def usesFallback (settings : Settings) : Bool :=
  settings.whitelistMap.isNone || settings.blacklistMap.isNone

/-! ## Classifier (src: classification-service.ts) -/

structure ClassificationResult where
  type : ParsedType
  confidence : JsNum
  reasoning : String

/-- `settings.orderKeywords?.split(',').map(k => k.trim().toLowerCase()) || []`. -/
def keywordList (raw : Option String) : List String :=
  match raw with
  | none => []
  | some s => (strSplitOn s ',').map (fun k => strLower (strTrim k))

/-- The lowercased `subject + " " + body` haystack of `classifyByKeywords`. -/
def keywordContent (email : Email) : String :=
  strLower (email.subject ++ " " ++ email.body)

/-- Number of keywords of the list that are non-empty and occur in the
content (`if (keyword && content.includes(keyword))`). -/
def keywordScore (content : String) (keywords : List String) : Nat :=
  (keywords.filter (fun k => !k.isEmpty && strContains content k)).length

/-- The reasoning string lists every keyword occurring in the content
(the source's second filter has no emptiness guard). -/
def matchedKeywords (content : String) (keywords : List String) : List String :=
  keywords.filter (fun k => strContains content k)

/-- `classifyByKeywords`. -/
def classifyByKeywords (email : Email) (settings : Settings) : ClassificationResult :=
  let content := keywordContent email
  let orderKeywords := keywordList settings.orderKeywords
  let estimateKeywords := keywordList settings.estimateKeywords
  let orderScore := keywordScore content orderKeywords
  let estimateScore := keywordScore content estimateKeywords
  if orderScore > estimateScore ∧ orderScore > 0 then
    { type := .order
      confidence := min (0.8 : JsNum) (0.3 + (orderScore : JsNum) * 0.1)
      reasoning := "Found " ++ toString orderScore ++ " order keywords: " ++
        String.intercalate ", " (matchedKeywords content orderKeywords) }
  else if estimateScore > orderScore ∧ estimateScore > 0 then
    { type := .estimate
      confidence := min (0.8 : JsNum) (0.3 + (estimateScore : JsNum) * 0.1)
      reasoning := "Found " ++ toString estimateScore ++ " estimate keywords: " ++
        String.intercalate ", " (matchedKeywords content estimateKeywords) }
  else
    { type := .other, confidence := (0.5 : JsNum), reasoning := "No clear keyword matches found" }

/-- `classifyEmail`.  `aiOutcome` is the modelled result of `classifyWithAI`
(an external AI HTTP call whose own `catch` guarantees it returns a
`ClassificationResult` rather than throwing); it is only consulted on the
escalation path. -/
def classifyEmail (email : Email) (settings : Settings)
    (aiOutcome : ClassificationResult) : ClassificationResult :=
  if isWeTransferEmail email then
    { type := .order, confidence := (0.95 : JsNum)
      reasoning := "WeTransfer email automatically classified as order" }
  else
    let keywordResult := classifyByKeywords email settings
    if keywordResult.confidence > (0.7 : JsNum) then keywordResult
    else if settings.useAiProcessing then
      if aiOutcome.confidence > keywordResult.confidence then aiOutcome
      else keywordResult
    else keywordResult

/-- `processEmailClassification`: route the email, drop it (`none`) on a
blacklist match, otherwise attach the content classification and mark it
processed. -/
def processEmailClassification (email : Email) (settings : Settings)
    (rulesFetch : Except String (List Rule)) (aiOutcome : ClassificationResult) :
    Option Email :=
  let classification := checkWhitelistStatus email settings rulesFetch
  match classification with
  | .skip => none
  | .inbox =>
      let classificationResult := classifyEmail email settings aiOutcome
      some { email with
              classification := .inbox
              parsed := some { type := classificationResult.type, data := none
                               confidence := classificationResult.confidence }
              status := .processed }
  | .unsorted =>
      let classificationResult := classifyEmail email settings aiOutcome
      some { email with
              classification := .unsorted
              parsed := some { type := classificationResult.type, data := none
                               confidence := classificationResult.confidence }
              status := .processed }

/-! ## Ingestion pipeline (src: email-service.ts, processEmails) -/

/-- One attachment as delivered by `simpleParser`. -/
structure MailAttachment where
  filename : Option String
  contentType : Option String
  size : Option Nat
  hasContent : Bool
deriving Repr, DecidableEq

/-- The fields of a `simpleParser` result the pipeline reads. -/
structure ParsedMail where
  subject : Option String
  fromText : Option String
  toText : Option String
  dateIso : Option String
  text : Option String
  html : Option String
  attachments : List MailAttachment
deriving DecidableEq

/-- One fetched IMAP message.  `parseResult` is the outcome of
`simpleParser(message.source)` (`.error` models parsing throwing);
`aiOutcome` is the modelled AI-stage classification result should the
classifier escalate for this message. -/
structure MailMessage where
  uid : Nat
  parseResult : Except String ParsedMail
  aiOutcome : ClassificationResult

/-- Construction of the `Email` record in the fetch loop (lines 232‑251 of
`email-service.ts`). -/
def buildEmail (settings : Settings) (nowIso : String) (pm : ParsedMail) : Email :=
  let fromText := jsOrElse pm.fromText "Unknown Sender"
  let senderEmail := extractEmailAddress fromText
  { id := ""
    subject := jsOrElse pm.subject "No Subject"
    fromField := fromText
    toField := jsOrElse pm.toText settings.username
    date := jsOrElse pm.dateIso nowIso
    body := jsOrElse pm.text (jsOrElse pm.html "No content")
    status := .processed
    parsed := none
    classification := .pending
    senderEmail := some senderEmail
    attachments := pm.attachments.map (fun att =>
      { filename := jsOrElse att.filename "unnamed"
        contentType := jsOrElse att.contentType "application/octet-stream"
        size := att.size.getD 0
        hasData := att.hasContent }) }

/-- `addEmail` of the data store: assign a fresh id and append. -/
def addEmail (store : List Email) (email : Email) : List Email :=
  store ++ [{ email with id := "email-" ++ toString store.length }]

/-- Accumulated state of the per-message loop. -/
structure PassAcc where
  store : List Email
  processedCount : Nat
  errors : List String

/-- The error string pushed when processing one message throws. -/
def processErrorMsg (messageCount : Nat) (uid : Nat) (e : String) : String :=
  "Failed to process message " ++ toString messageCount ++
  " (UID: " ++ toString uid ++ "): " ++ e

/-- The body of `for await (let message of messages)`. -/
def processOneMessage (settings : Settings) (rulesFetch : Except String (List Rule))
    (nowIso : String) (acc : PassAcc) (messageCount : Nat) (msg : MailMessage) :
    PassAcc :=
  match msg.parseResult with
  | .error e =>
      { acc with errors := acc.errors ++ [processErrorMsg messageCount msg.uid e] }
  | .ok pm =>
      let email := buildEmail settings nowIso pm
      let tempEmail := { email with id := "temp" }
      let classifiedEmail : Option Email :=
        if isWeTransferEmail tempEmail then
          some { email with
                  id := ""
                  classification := .inbox
                  parsed := some { type := .order, data := some (Json.obj [])
                                   confidence := (0.9 : JsNum) } }
        else
          processEmailClassification tempEmail settings rulesFetch msg.aiOutcome
      match classifiedEmail with
      | some ce =>
          { acc with store := addEmail acc.store ce
                     processedCount := acc.processedCount + 1 }
      | none => acc

/-- The fetch loop, threading `messageCount` (1-based, incremented at the top
of each iteration) and the accumulator. -/
def runMessages (settings : Settings) (rulesFetch : Except String (List Rule))
    (nowIso : String) : Nat → PassAcc → List MailMessage → PassAcc
  | _, acc, [] => acc
  | messageCount, acc, msg :: rest =>
      runMessages settings rulesFetch nowIso (messageCount + 1)
        (processOneMessage settings rulesFetch nowIso acc messageCount msg) rest

/-- `processEmails` restricted to the per-message phase: connection and search
are external; `msgs` is the fetched unseen set.  The `shouldStopParsing`
argument is the ambient global stop flag — the source's loop never reads it,
which the definition makes explicit by ignoring the argument.  An empty
search result returns `{processedCount: 0, errors: []}` without entering the
loop. -/
def processEmails (shouldStopParsing : Bool) (settings : Settings)
    (rulesFetch : Except String (List Rule)) (nowIso : String)
    (store : List Email) (msgs : List MailMessage) : PassAcc :=
  if msgs.isEmpty then
    { store := store, processedCount := 0, errors := [] }
  else
    runMessages settings rulesFetch nowIso 1
      { store := store, processedCount := 0, errors := [] } msgs

/-! ## Structured extractor (src: ai-parsing-service.ts) -/

inductive ExtractType where
  | order | estimate
deriving Repr, DecidableEq

structure EmailFileData where
  folderPath : String
  htmlFile : String
  jsonFile : String
  attachmentFiles : List String
  parsedJsonFile : Option String
deriving Repr, DecidableEq

structure ParsedPayload where
  type : ExtractType
  data : Json
  confidence : JsNum
  reasoning : String

structure ParsedEmailData where
  type : ExtractType
  data : Json
  confidence : JsNum
  reasoning : String
  attachmentsSaved : List String
  emailFiles : Option EmailFileData

/-- Step 1 of `parseEmailWithAI` (recomputed verbatim in its catch block):
WeTransfer forces `order`; otherwise the email's classification hint decides,
defaulting to `estimate`. -/
def resolveExpectedType (email : Email) : ExtractType :=
  if isWeTransferEmail email then .order
  else
    match email.parsed with
    | some p => if p.type == .order then .order else .estimate
    | none => .estimate

/-- The regex `/([^@]+)@/`: the first maximal non-empty run of non-`@`
characters that is immediately followed by `@`. -/
def firstRunBeforeAt : List Char → Option (List Char)
  | [] => none
  | '@' :: rest => firstRunBeforeAt rest
  | c :: rest =>
      let run := rest.takeWhile (fun d => d ≠ '@')
      if (rest.drop run.length).head? = some '@' then some (c :: run) else none

/-- Second branch of `extractCustomerName`: local part of the address with
`.`/`_` replaced by spaces, trimmed. -/
def nameFromEmailLocalPart (fromField : String) : Option String :=
  match firstRunBeforeAt fromField.data with
  | some run =>
      some (strTrim (String.mk (run.map (fun c => if c = '.' ∨ c = '_' then ' ' else c))))
  | none => none

/-- `extractCustomerName` (ai-parsing-service.ts): the regex
`/^"?([^"<]+)"?\s*</` — an optional leading quote, a non-empty run of
non-quote non-`<` characters, an optional quote, whitespace, then `<` —
else fall back to the address local part. -/
def extractCustomerName (fromField : String) : Option String :=
  let cs := match fromField.data with
            | '"' :: rest => rest
            | cs => cs
  let run := cs.takeWhile (fun c => c ≠ '"' ∧ c ≠ '<')
  let rest := cs.drop run.length
  let angleFollows : Bool :=
    match rest with
    | '<' :: _ => true
    | '"' :: rest2 => (rest2.dropWhile (fun c => c.isWhitespace)).head? = some '<'
    | _ => false
  if run.length ≥ 1 ∧ angleFollows then some (strTrim (String.mk run))
  else nameFromEmailLocalPart fromField

/-- `createFallbackOrderData`.  Properties whose source value is `undefined`
are omitted from the object. -/
def createFallbackOrderData (email : Email) : Json :=
  Json.obj (
    (match extractCustomerName email.fromField with
     | some n => [("customerName", Json.str n)]
     | none => []) ++
    (match email.senderEmail with
     | some s => if s.isEmpty then [] else [("customerEmail", Json.str s)]
     | none => []) ++
    [("items", Json.arr [Json.obj
        [("description", Json.str ("Order from email: " ++ email.subject)),
         ("quantity", Json.num 1)]]),
     ("rushOrder", Json.bool (strContains (strLower email.subject) "rush")),
     ("specialInstructions", Json.str (jsSubstring email.body 0 500))])

/-- `createFallbackEstimateData`. -/
def createFallbackEstimateData (email : Email) : Json :=
  Json.obj (
    (match extractCustomerName email.fromField with
     | some n => [("customerName", Json.str n)]
     | none => []) ++
    (match email.senderEmail with
     | some s => if s.isEmpty then [] else [("customerEmail", Json.str s)]
     | none => []) ++
    [("projectDescription", Json.str email.subject),
     ("items", Json.arr [Json.obj
        [("description", Json.str ("Estimate request from email: " ++ email.subject)),
         ("quantity", Json.num 1)]]),
     ("notes", Json.str (jsSubstring email.body 0 500))])

/-- Required fields per target type. -/
def requiredFields : ExtractType → List String
  | .order => ["customerName", "items"]
  | .estimate => ["customerName", "items", "projectDescription"]

/-- `requiredFields.filter(field => parsed[field] && parsed[field] !== null)`. -/
def presentFields (t : ExtractType) (parsed : Json) : List String :=
  (requiredFields t).filter (fun field => Json.truthy (parsed.lookup field))

/-- `parsed.items[0].description` truthiness. -/
def firstItemHasDescription (items : List Json) : Bool :=
  match items with
  | item :: _ => Json.truthy (item.lookup "description")
  | [] => false

/-- The confidence computation of `parseAIParsingResponse`, clamp included. -/
def computeParseConfidence (t : ExtractType) (parsed : Json) (items : List Json) : JsNum :=
  let required := requiredFields t
  let present := presentFields t parsed
  let confidence :=
    min (0.95 : JsNum) (0.3 + ((present.length : JsNum) / (required.length : JsNum)) * 0.6)
  let confidence :=
    if items.length > 0 && firstItemHasDescription items then confidence + 0.1
    else confidence
  max (0.1 : JsNum) (min (0.95 : JsNum) confidence)

/-- The regex `\{[\s\S]*\}` on the trimmed reply: from the first `{` to the
last `}` after it; if there is no such span the reply is left as is. -/
def extractJsonBlock (response : String) : String :=
  let t := response.trim
  let cs := t.data
  match cs.findIdx? (fun c => c = '{') with
  | none => t
  | some i =>
      let tail := cs.drop i
      match tail.reverse.findIdx? (fun c => c = '}') with
      | none => t
      | some k => String.mk (tail.take (tail.length - k))

/-- `parseAIParsingResponse`.  `jsonParse` supplies the outcome of the
external `JSON.parse` on the extracted block (`none` = it threw). -/
def parseAIParsingResponse (jsonParse : String → Option Json) (response : String)
    (expectedType : ExtractType) : Except String ParsedPayload :=
  let cleanResponse := extractJsonBlock response
  match jsonParse cleanResponse with
  | none => .error "Failed to parse AI response: Unexpected token in JSON"
  | some parsed =>
      match parsed.lookup "items" with
      | some (.arr items) =>
          .ok { type := expectedType
                data := parsed
                confidence := computeParseConfidence expectedType parsed items
                reasoning := "Successfully parsed " ++ toString items.length ++
                  " items with " ++ toString (presentFields expectedType parsed).length ++
                  "/" ++ toString (requiredFields expectedType).length ++
                  " required fields" }
      | _ => .error "Failed to parse AI response: Invalid items array in parsed data"

/-- Environment of one `parseEmailWithAI` call: the outcomes the external
world (IMAP re-fetch, AI HTTP endpoints, `JSON.parse`, filesystem) produces. -/
structure ExtractionEnv where
  refetchResult : Except String Email
  googleResponse : Except String String
  ollamaResponse : Except String String
  jsonParse : String → Option Json
  saveFilesResult : Except String EmailFileData
  saveParsedJsonResult : Except String String

/-- `callGoogleAI`: a missing or empty API key throws before any network
activity; otherwise the call's outcome is the environment's. -/
def callGoogleAI (settings : Settings) (env : ExtractionEnv) : Except String String :=
  match settings.googleApiKey with
  | none => .error "Google API key not configured"
  | some key =>
      if key.isEmpty then .error "Google API key not configured"
      else env.googleResponse

/-- `callOllamaAI`: no credential check; the outcome is the environment's. -/
def callOllamaAI (env : ExtractionEnv) : Except String String :=
  env.ollamaResponse

/-- Provider dispatch of step 3 of `parseEmailWithAI`. -/
def aiCallResult (settings : Settings) (env : ExtractionEnv) : Except String String :=
  match settings.aiProvider with
  | .google => callGoogleAI settings env
  | .ollama => callOllamaAI env

/-- The catch-block fallback record of `parseEmailWithAI`. -/
def fallbackParsedData (email : Email) (errorMessage : String) : ParsedEmailData :=
  let fallbackType := resolveExpectedType email
  { type := fallbackType
    data := match fallbackType with
            | .order => createFallbackOrderData email
            | .estimate => createFallbackEstimateData email
    confidence := (0.1 : JsNum)
    reasoning := "AI parsing failed: " ++ errorMessage
    attachmentsSaved := []
    emailFiles := none }

/-- The `if (saveFiles)` block: `saveEmailWithFiles` then `saveParsedDataJson`,
with its own catch — a failure there leaves whatever was assigned before the
throw and continues without the remaining files. -/
def saveFilesPhase (saveFiles : Bool) (env : ExtractionEnv) :
    Option EmailFileData × List String :=
  if saveFiles then
    match env.saveFilesResult with
    | .error _ => (none, [])
    | .ok emailFiles =>
        if !emailFiles.folderPath.isEmpty then
          match env.saveParsedJsonResult with
          | .ok parsedJsonFile =>
              (some { emailFiles with parsedJsonFile := some parsedJsonFile },
               emailFiles.attachmentFiles)
          | .error _ => (some emailFiles, emailFiles.attachmentFiles)
        else (some emailFiles, emailFiles.attachmentFiles)
  else (none, [])

/-- `parseEmailWithAI`.  A failed attachment re-fetch is absorbed (the
original email is used); an AI-call or reply-parse failure reaches the outer
catch and yields `fallbackParsedData`; a file-save failure is absorbed by the
inner catch and the parsed record is returned without files. -/
def parseEmailWithAI (email : Email) (settings : Settings) (saveFiles : Bool)
    (env : ExtractionEnv) : ParsedEmailData :=
  let expectedType := resolveExpectedType email
  let _fullEmail : Email :=
    if saveFiles && email.attachments.isEmpty then
      match env.refetchResult with
      | .ok fetched => fetched
      | .error _ => email
    else email
  match aiCallResult settings env with
  | .error e => fallbackParsedData email e
  | .ok aiResponse =>
      match parseAIParsingResponse env.jsonParse aiResponse expectedType with
      | .error e => fallbackParsedData email e
      | .ok parsedData =>
          let files := saveFilesPhase saveFiles env
          { type := parsedData.type
            data := parsedData.data
            confidence := parsedData.confidence
            reasoning := parsedData.reasoning
            attachmentsSaved := files.2
            emailFiles := files.1 }

/-! ## Soft stop flag (src: api/emails/parse/route.ts and the stop route) -/

/-- The two module-global stop booleans plus the pending `setTimeout` reset
scheduled by the stop route. -/
structure StopState where
  shouldStop : Bool
  shouldStopParsing : Bool
  resetPending : Bool
deriving Repr, DecidableEq

/-- The stop route's `POST`: set both flags and schedule a reset after a
fixed 5000 ms delay. -/
def stopRoutePost (_s : StopState) : StopState :=
  { shouldStop := true, shouldStopParsing := true, resetPending := true }

/-- The scheduled `setTimeout` firing: clear both flags. -/
def stopTimerFire (s : StopState) : StopState :=
  if s.resetPending then
    { shouldStop := false, shouldStopParsing := false, resetPending := false }
  else s

/-! ## Manual AI-parsing batch loop (src: api/emails/parse/route.ts POST) -/

/-- One email of the batch with the outcomes of its effectful calls:
`updateResult` is the outcome of `updateEmail` after `parseEmailWithAI`
(which itself never throws) — `.error` models a throw reaching the loop's
catch, `.ok false` models `updateEmail` returning no email. -/
structure BatchItem where
  id : String
  subject : String
  updateResult : Except String Bool
deriving Repr

/-- The accumulating `results` object of the route. -/
structure BatchResults where
  parsed : Nat
  failed : Nat
  errors : List String
  parsedIds : List String
deriving Repr, DecidableEq

/-- The `for (const email of emailsToParse)` loop.  `flagAt k` is the value
`getShouldStopParsing()` returns at the loop's k-th top-of-iteration check;
a `true` breaks out, returning the results accumulated so far. -/
def parseBatchLoop (flagAt : Nat → Bool) : Nat → BatchResults → List BatchItem →
    BatchResults
  | _, acc, [] => acc
  | k, acc, item :: rest =>
      if flagAt k then acc
      else
        let acc' :=
          match item.updateResult with
          | .error e =>
              { acc with failed := acc.failed + 1
                         errors := acc.errors ++
                           ["Failed to parse " ++ item.subject ++ ": " ++ e] }
          | .ok false =>
              { acc with failed := acc.failed + 1
                         errors := acc.errors ++
                           ["Failed to update email: " ++ item.subject] }
          | .ok true =>
              { acc with parsed := acc.parsed + 1
                         parsedIds := acc.parsedIds ++ [item.id] }
        parseBatchLoop flagAt (k + 1) acc' rest

/-! ## Job queue (src: lib/job-queue.ts and api/jobs/route.ts) -/

inductive JobType where
  | emailProcessing | emailProcessingOptimized
deriving Repr, DecidableEq

inductive JobStatus where
  | pending | running | completed | failed
deriving Repr, DecidableEq

structure Job where
  id : Nat
  type : JobType
  status : JobStatus
  progress : JsNum
  startTime : Option Nat
  endTime : Option Nat
  result : Option (Nat × List String)
  error : Option String
  currentOperation : Option String
  totalEmails : Option Nat
  processedEmails : Option Nat

/-- The module state of `job-queue.ts`: the `jobs` map (id-keyed, modelled as
a list with unique ids), the `currentJob` reference and the id generator. -/
structure JobState where
  jobs : List Job
  currentJob : Option Job
  nextId : Nat

/-- `createJob`: a fresh pending job, inserted into the map. -/
def createJob (s : JobState) (t : JobType) : Job × JobState :=
  let job : Job :=
    { id := s.nextId, type := t, status := .pending, progress := 0
      startTime := none, endTime := none, result := none, error := none
      currentOperation := none, totalEmails := none, processedEmails := none }
  (job, { s with jobs := s.jobs ++ [job], nextId := s.nextId + 1 })

/-- `updateJob`: apply an update to the job with a given id, keeping the
`currentJob` reference in sync. -/
def updateJob (s : JobState) (id : Nat) (f : Job → Job) : JobState :=
  match s.jobs.find? (fun j => j.id == id) with
  | none => s
  | some j =>
      let j' := f j
      { s with
          jobs := s.jobs.map (fun k => if k.id == id then j' else k)
          currentJob :=
            match s.currentJob with
            | some c => if c.id == id then some j' else some c
            | none => none }

/-- `getCurrentJob() && status === 'running'`. -/
def currentRunning (s : JobState) : Bool :=
  match s.currentJob with
  | some c => c.status == .running
  | none => false

/-- The synchronous prefix of `processJob`: the duplicate-run guard and the
taking of the `currentJob` slot.  The job is still `pending` at this point:
`await addLog(...)` suspends `processJob` before `updateJob` turns it
`running`, so the transition to `running` is a separate later event
(`markRunning`). -/
def processJobSync (s : JobState) (job : Job) : JobState :=
  if currentRunning s then s else { s with currentJob := some job }

/-- The continuation of `processJob` resuming on the far side of the
`await`: the job turns `running`. -/
def markRunning (s : JobState) (id time : Nat) : JobState :=
  updateJob s id (fun j =>
    { j with status := .running, startTime := some time, progress := 0 })

/-- `cleanupJobs`: evict completed/failed jobs beyond the 10 most recent
(most recent by `startTime`, as `getAllJobs` sorts). -/
def cleanupJobs (s : JobState) : JobState :=
  let allJobs := s.jobs.mergeSort (fun a b => (b.startTime.getD 0) ≤ (a.startTime.getD 0))
  let completedJobs := allJobs.filter
    (fun j => j.status == .completed || j.status == .failed)
  if completedJobs.length > 10 then
    let jobsToRemove := completedJobs.drop 10
    let kept := s.jobs.filter (fun j => !((jobsToRemove.map Job.id).contains j.id))
    { s with jobs := kept }
  else s

inductive PostJobsOutcome where
  | badRequest
  | conflict
  | accepted (jobId : Nat)
deriving Repr, DecidableEq

/-- The job-queue state together with the `processJob` continuations parked
at the `await` between the slot-take and the `running` transition. -/
structure QueueState where
  st : JobState
  pendingStarts : List Nat

/-- The jobs route `POST`: validate, reject with 409 if the current job is
running (nothing is created or mutated), otherwise create the job, run
`processJob` synchronously up to its first `await` (parking the rest as a
pending start), and clean up old jobs. -/
def postJobs (q : QueueState) (validType hasSettings : Bool) (t : JobType) :
    PostJobsOutcome × QueueState :=
  if !validType then (.badRequest, q)
  else if !hasSettings then (.badRequest, q)
  else if currentRunning q.st then (.conflict, q)
  else
    let (job, s₁) := createJob q.st t
    (.accepted job.id,
      ⟨cleanupJobs (processJobSync s₁ job), q.pendingStarts ++ [job.id]⟩)

/-- A parked `processJob` continuation resuming: its job turns `running`. -/
def startResume (q : QueueState) (id time : Nat) : QueueState :=
  ⟨markRunning q.st id time, q.pendingStarts.erase id⟩

/-- The tail of `processJob` resuming after `processEmails` settles: update
the job to completed/failed and release the `currentJob` slot (`finally`). -/
def finishJob (s : JobState) (ok : Bool) (res : Nat × List String) (err : String)
    (time : Nat) : JobState :=
  match s.currentJob with
  | none => s
  | some c =>
      let s₁ := updateJob s c.id (fun j =>
        if ok then
          { j with status := .completed, endTime := some time, progress := 100
                   result := some res }
        else
          { j with status := .failed, endTime := some time, error := some err })
      { s₁ with currentJob := none }

/-- The progress callback handed to `processEmails`. -/
def progressUpdate (s : JobState) (id : Nat) (op : String) (p : JsNum)
    (total processed : Option Nat) : JobState :=
  updateJob s id (fun j =>
    { j with currentOperation := some op
             progress := min 100 (max 0 p)
             totalEmails := total
             processedEmails := processed })

/-- The interleaved transitions of the job-queue module: route posts, parked
start continuations resuming, job completion, progress callbacks, cleanup. -/
inductive QStep : QueueState → QueueState → Prop
  | post (q : QueueState) (validType hasSettings : Bool) (t : JobType) :
      QStep q (postJobs q validType hasSettings t).2
  | start (q : QueueState) (id time : Nat) (h : id ∈ q.pendingStarts) :
      QStep q (startResume q id time)
  | finish (q : QueueState) (ok : Bool) (res : Nat × List String) (err : String)
      (time : Nat) : QStep q ⟨finishJob q.st ok res err time, q.pendingStarts⟩
  | progress (q : QueueState) (id : Nat) (op : String) (p : JsNum)
      (total processed : Option Nat) :
      QStep q ⟨progressUpdate q.st id op p total processed, q.pendingStarts⟩
  | cleanup (q : QueueState) : QStep q ⟨cleanupJobs q.st, q.pendingStarts⟩

/-- The initial module state. -/
def initJobState : JobState := { jobs := [], currentJob := none, nextId := 0 }

def initQueueState : QueueState := ⟨initJobState, []⟩

/-- States reachable from module load under arbitrary interleaving. -/
inductive QReachable : QueueState → Prop
  | init : QReachable initQueueState
  | step {q q' : QueueState} : QReachable q → QStep q q' → QReachable q'

/-- A submission under the serialized schedule: the accepted job's parked
start resumes before the next event. -/
def postThenStart (q : QueueState) (validType hasSettings : Bool) (t : JobType)
    (time : Nat) : QueueState :=
  match postJobs q validType hasSettings t with
  | (.accepted id, q₁) => startResume q₁ id time
  | (_, q₁) => q₁

/-- The serialized schedule: every accepted submission completes its start
transition before the next event. -/
inductive SStep : QueueState → QueueState → Prop
  | post (q : QueueState) (validType hasSettings : Bool) (t : JobType) (time : Nat) :
      SStep q (postThenStart q validType hasSettings t time)
  | finish (q : QueueState) (ok : Bool) (res : Nat × List String) (err : String)
      (time : Nat) : SStep q ⟨finishJob q.st ok res err time, q.pendingStarts⟩
  | progress (q : QueueState) (id : Nat) (op : String) (p : JsNum)
      (total processed : Option Nat) :
      SStep q ⟨progressUpdate q.st id op p total processed, q.pendingStarts⟩
  | cleanup (q : QueueState) : SStep q ⟨cleanupJobs q.st, q.pendingStarts⟩

/-- States reachable under the serialized schedule. -/
inductive SReachable : QueueState → Prop
  | init : SReachable initQueueState
  | step {q q' : QueueState} : SReachable q → SStep q q' → SReachable q'

/-! ## Rule matcher lemmas -/

theorem ruleMatches_of_exact {r : Rule} {sender : String}
    (h : ruleExact sender r = true) : ruleMatches r sender = true := by
  simp [ruleMatches, h]

theorem ruleMatches_of_substr {r : Rule} {sender : String}
    (h : ruleSubstr sender r = true) : ruleMatches r sender = true := by
  simp [ruleMatches, h]

theorem checkWhitelistStatus_fallback (email : Email) (settings : Settings)
    (rulesFetch : Except String (List Rule)) (h : usesFallback settings = true) :
    checkWhitelistStatus email settings rulesFetch =
      fallbackScan (strLower (email.senderEmail.getD "")) rulesFetch := by
  unfold checkWhitelistStatus
  unfold usesFallback at h
  cases hw : settings.whitelistMap with
  | none => rfl
  | some wl =>
      cases hb : settings.blacklistMap with
      | none => rfl
      | some bl =>
          rw [hw, hb] at h
          simp [Option.isNone] at h

theorem fallbackScan_skip {sender : String} {rules : List Rule}
    (hbl : ∃ r ∈ rules, r.type = .blacklist ∧ ruleMatches r sender = true)
    (hwl : ∀ r ∈ rules, r.type = .whitelist → ruleMatches r sender = false) :
    fallbackScan sender (.ok rules) = .skip := by
  obtain ⟨rb, hmem, hbl_t, hbl_m⟩ := hbl
  cases h1 : rules.find? (ruleExact sender) with
  | some r =>
      have hp : ruleExact sender r = true := List.find?_some h1
      have hm : r ∈ rules := List.mem_of_find?_eq_some h1
      cases ht : r.type with
      | whitelist =>
          have hfalse := hwl r hm ht
          rw [ruleMatches_of_exact hp] at hfalse
          exact absurd hfalse (by simp)
      | blacklist => simp [fallbackScan, h1, ht]
  | none =>
      have hnone := List.find?_eq_none.mp h1
      have hex : ruleExact sender rb = false :=
        Bool.eq_false_iff.mpr (hnone rb hmem)
      have hsub : ruleSubstr sender rb = true := by
        unfold ruleMatches at hbl_m
        rw [hex] at hbl_m
        simpa using hbl_m
      cases h2 : rules.find? (ruleSubstr sender) with
      | none =>
          have := List.find?_eq_none.mp h2 rb hmem
          rw [hsub] at this
          exact absurd rfl this
      | some r =>
          have hp : ruleSubstr sender r = true := List.find?_some h2
          have hm : r ∈ rules := List.mem_of_find?_eq_some h2
          cases ht : r.type with
          | whitelist =>
              have hfalse := hwl r hm ht
              rw [ruleMatches_of_substr hp] at hfalse
              exact absurd hfalse (by simp)
          | blacklist => simp [fallbackScan, h1, h2, ht]

theorem fallbackScan_inbox {sender : String} {rules : List Rule}
    (hwl : ∃ r ∈ rules, r.type = .whitelist ∧ ruleMatches r sender = true)
    (hbl : ∀ r ∈ rules, r.type = .blacklist → ruleMatches r sender = false) :
    fallbackScan sender (.ok rules) = .inbox := by
  obtain ⟨rw₀, hmem, hwl_t, hwl_m⟩ := hwl
  cases h1 : rules.find? (ruleExact sender) with
  | some r =>
      have hp : ruleExact sender r = true := List.find?_some h1
      have hm : r ∈ rules := List.mem_of_find?_eq_some h1
      cases ht : r.type with
      | whitelist => simp [fallbackScan, h1, ht]
      | blacklist =>
          have hfalse := hbl r hm ht
          rw [ruleMatches_of_exact hp] at hfalse
          exact absurd hfalse (by simp)
  | none =>
      have hnone := List.find?_eq_none.mp h1
      have hex : ruleExact sender rw₀ = false :=
        Bool.eq_false_iff.mpr (hnone rw₀ hmem)
      have hsub : ruleSubstr sender rw₀ = true := by
        unfold ruleMatches at hwl_m
        rw [hex] at hwl_m
        simpa using hwl_m
      cases h2 : rules.find? (ruleSubstr sender) with
      | none =>
          have := List.find?_eq_none.mp h2 rw₀ hmem
          rw [hsub] at this
          exact absurd rfl this
      | some r =>
          have hp : ruleSubstr sender r = true := List.find?_some h2
          have hm : r ∈ rules := List.mem_of_find?_eq_some h2
          cases ht : r.type with
          | whitelist => simp [fallbackScan, h1, h2, ht]
          | blacklist =>
              have hfalse := hbl r hm ht
              rw [ruleMatches_of_substr hp] at hfalse
              exact absurd hfalse (by simp)

theorem fallbackScan_unsorted {sender : String} {rules : List Rule}
    (h : ∀ r ∈ rules, ruleMatches r sender = false) :
    fallbackScan sender (.ok rules) = .unsorted := by
  have h1 : rules.find? (ruleExact sender) = none := by
    rw [List.find?_eq_none]
    intro r hr hcontra
    have hmt := ruleMatches_of_exact (show ruleExact sender r = true from hcontra)
    rw [h r hr] at hmt
    exact absurd hmt (by simp)
  have h2 : rules.find? (ruleSubstr sender) = none := by
    rw [List.find?_eq_none]
    intro r hr hcontra
    have hmt := ruleMatches_of_substr (show ruleSubstr sender r = true from hcontra)
    rw [h r hr] at hmt
    exact absurd hmt (by simp)
  simp [fallbackScan, h1, h2]

/-! ## Concrete fixtures used by witnesses and counterexamples -/

/-- Fallback-mode settings (no preloaded rule maps). -/
def fbSettings : Settings :=
  { username := "me@shop.com", useAiProcessing := false, aiProvider := .google
    googleApiKey := none, orderKeywords := none, estimateKeywords := none
    classificationInstructions := none, whitelistMap := none, blacklistMap := none }

/-- A plain email from `spam@bad.com`. -/
def spamEmail : Email :=
  { id := "1", subject := "hello", fromField := "Spam <spam@bad.com>"
    toField := "me@shop.com", date := "2024-01-01", body := "buy now"
    attachments := [], parsed := none, status := .unprocessed
    classification := .pending, senderEmail := some "spam@bad.com" }

/-! ## C2 — rule precedence -/

/-- C2 (corrected).  Blacklist precedence holds in the optimized set-lookup
mode: an exact blacklist-set hit yields `skip` whatever the whitelist set
says, a whitelist-only hit yields `inbox`, no hit yields `unsorted`.  In the
fallback linear scan the first matching rule in list order wins instead, so
there `skip` is guaranteed when some blacklist rule matches and no whitelist
rule does, `inbox` when some whitelist rule matches and no blacklist rule
does, and `unsorted` when no rule matches. -/
theorem C2_rule_precedence :
    (∀ (email : Email) (settings : Settings) (wl bl : List String)
        (rf : Except String (List Rule)),
        settings.whitelistMap = some wl → settings.blacklistMap = some bl →
        (bl.contains (strLower (email.senderEmail.getD "")) = true →
          checkWhitelistStatus email settings rf = .skip) ∧
        (bl.contains (strLower (email.senderEmail.getD "")) = false →
          wl.contains (strLower (email.senderEmail.getD "")) = true →
          checkWhitelistStatus email settings rf = .inbox) ∧
        (bl.contains (strLower (email.senderEmail.getD "")) = false →
          wl.contains (strLower (email.senderEmail.getD "")) = false →
          checkWhitelistStatus email settings rf = .unsorted)) ∧
    (∀ (email : Email) (settings : Settings) (rules : List Rule),
        usesFallback settings = true →
        ((∃ r ∈ rules, r.type = .blacklist ∧
            ruleMatches r (strLower (email.senderEmail.getD "")) = true) →
          (∀ r ∈ rules, r.type = .whitelist →
            ruleMatches r (strLower (email.senderEmail.getD "")) = false) →
          checkWhitelistStatus email settings (.ok rules) = .skip) ∧
        ((∃ r ∈ rules, r.type = .whitelist ∧
            ruleMatches r (strLower (email.senderEmail.getD "")) = true) →
          (∀ r ∈ rules, r.type = .blacklist →
            ruleMatches r (strLower (email.senderEmail.getD "")) = false) →
          checkWhitelistStatus email settings (.ok rules) = .inbox) ∧
        ((∀ r ∈ rules, ruleMatches r (strLower (email.senderEmail.getD "")) = false) →
          checkWhitelistStatus email settings (.ok rules) = .unsorted)) := by
  constructor
  · intro email settings wl bl rf hw hb
    unfold checkWhitelistStatus
    rw [hw, hb]
    refine ⟨fun hbl => ?_, fun hbl hwl => ?_, fun hbl hwl => ?_⟩
    · have hmem : strLower (email.senderEmail.getD "") ∈ bl := by simpa using hbl
      simp [hmem]
    · have h1 : strLower (email.senderEmail.getD "") ∉ bl := by simpa using hbl
      have h2 : strLower (email.senderEmail.getD "") ∈ wl := by simpa using hwl
      simp [h1, h2]
    · have h1 : strLower (email.senderEmail.getD "") ∉ bl := by simpa using hbl
      have h2 : strLower (email.senderEmail.getD "") ∉ wl := by simpa using hwl
      simp [h1, h2]
  · intro email settings rules hfb
    refine ⟨fun hbl hwl => ?_, fun hwl hbl => ?_, fun hnone => ?_⟩
    · rw [checkWhitelistStatus_fallback email settings _ hfb]
      exact fallbackScan_skip hbl hwl
    · rw [checkWhitelistStatus_fallback email settings _ hfb]
      exact fallbackScan_inbox hwl hbl
    · rw [checkWhitelistStatus_fallback email settings _ hfb]
      exact fallbackScan_unsorted hnone

/-- C2 counterexample: in the fallback scan, a sender that matches both an
active whitelist rule and an active blacklist rule with the same pattern is
routed `inbox` (the first-listed rule wins), not `skip` as the claim states. -/
theorem C2_cex :
    (∃ r ∈ [Rule.mk "r1" .whitelist "spam@bad.com" none true,
            Rule.mk "r2" .blacklist "spam@bad.com" none true],
        r.type = .whitelist ∧ ruleMatches r "spam@bad.com" = true) ∧
    (∃ r ∈ [Rule.mk "r1" .whitelist "spam@bad.com" none true,
            Rule.mk "r2" .blacklist "spam@bad.com" none true],
        r.type = .blacklist ∧ ruleMatches r "spam@bad.com" = true) ∧
    spamEmail.senderEmail = some "spam@bad.com" ∧
    checkWhitelistStatus spamEmail fbSettings
      (.ok [Rule.mk "r1" .whitelist "spam@bad.com" none true,
            Rule.mk "r2" .blacklist "spam@bad.com" none true]) = .inbox := by
  decide

/-- Witness for `C2_rule_precedence` at concrete inputs. -/
theorem C2_witness :
    checkWhitelistStatus spamEmail
      { fbSettings with whitelistMap := some ["good@x.com"]
                        blacklistMap := some ["spam@bad.com"] }
      (.ok []) = .skip ∧
    checkWhitelistStatus spamEmail fbSettings
      (.ok [Rule.mk "r2" .blacklist "bad.com" none true]) = .skip := by
  constructor
  · exact (C2_rule_precedence.1 spamEmail
      { fbSettings with whitelistMap := some ["good@x.com"]
                        blacklistMap := some ["spam@bad.com"] }
      ["good@x.com"] ["spam@bad.com"] (.ok []) rfl rfl).1 (by decide)
  · exact (C2_rule_precedence.2 spamEmail fbSettings
      [Rule.mk "r2" .blacklist "bad.com" none true] (by decide)).1
      (by decide)
      (by
        intro r hr hw
        simp only [List.mem_singleton] at hr
        subst hr
        exact absurd hw (by decide))

/-! ## C10 — rule-lookup failure resolves to unsorted -/

/-- C10 (confirmed).  `checkWhitelistStatus` never rejects: in fallback mode,
if the rule lookup fails with any internal error, the catch resolves the call
to `'unsorted'` — never `'skip'` or `'inbox'`. -/
theorem C10_lookup_failure_unsorted (email : Email) (settings : Settings)
    (e : String) (h : usesFallback settings = true) :
    checkWhitelistStatus email settings (.error e) = .unsorted := by
  rw [checkWhitelistStatus_fallback email settings _ h]
  rfl

/-- Witness for `C10_lookup_failure_unsorted` at concrete inputs. -/
theorem C10_witness :
    checkWhitelistStatus spamEmail fbSettings (.error "data store threw") =
      .unsorted :=
  C10_lookup_failure_unsorted spamEmail fbSettings "data store threw" (by decide)

/-! ## Ingestion loop lemmas -/

/-- `processEmailClassification` drops the email exactly when routing says
`skip`. -/
theorem processEmailClassification_eq_none_iff (email : Email) (settings : Settings)
    (rulesFetch : Except String (List Rule)) (aiOutcome : ClassificationResult) :
    processEmailClassification email settings rulesFetch aiOutcome = none ↔
      checkWhitelistStatus email settings rulesFetch = .skip := by
  unfold processEmailClassification
  cases h : checkWhitelistStatus email settings rulesFetch <;> simp [h]

/-- A message the loop retains (its parse succeeds and it is not dropped by
the blacklist). -/
def messageRetained (settings : Settings) (rulesFetch : Except String (List Rule))
    (nowIso : String) (m : MailMessage) : Bool :=
  match m.parseResult with
  | .error _ => false
  | .ok pm =>
      let tempEmail := { buildEmail settings nowIso pm with id := "temp" }
      isWeTransferEmail tempEmail ||
        (processEmailClassification tempEmail settings rulesFetch m.aiOutcome).isSome

theorem processOneMessage_error {settings : Settings}
    {rulesFetch : Except String (List Rule)} {nowIso : String} {acc : PassAcc}
    {k : Nat} {m : MailMessage} {e : String} (h : m.parseResult = .error e) :
    processOneMessage settings rulesFetch nowIso acc k m =
      { acc with errors := acc.errors ++ [processErrorMsg k m.uid e] } := by
  unfold processOneMessage
  rw [h]

theorem processOneMessage_retained {settings : Settings}
    {rulesFetch : Except String (List Rule)} {nowIso : String} {acc : PassAcc}
    {k : Nat} {m : MailMessage}
    (h : messageRetained settings rulesFetch nowIso m = true) :
    (processOneMessage settings rulesFetch nowIso acc k m).processedCount =
      acc.processedCount + 1 ∧
    (processOneMessage settings rulesFetch nowIso acc k m).errors = acc.errors := by
  unfold messageRetained at h
  unfold processOneMessage
  cases hp : m.parseResult with
  | error e => rw [hp] at h; exact absurd h (by simp)
  | ok pm =>
      rw [hp] at h
      simp only [Bool.or_eq_true] at h
      cases hwt : isWeTransferEmail { buildEmail settings nowIso pm with id := "temp" } with
      | true => simp [hwt]
      | false =>
          rw [hwt] at h
          rcases h with h | h
          · exact absurd h (by simp)
          · rw [Option.isSome_iff_exists] at h
            obtain ⟨ce, hce⟩ := h
            simp [hwt, hce]

theorem processOneMessage_skipped {settings : Settings}
    {rulesFetch : Except String (List Rule)} {nowIso : String} {acc : PassAcc}
    {k : Nat} {m : MailMessage} {pm : ParsedMail} (hp : m.parseResult = .ok pm)
    (h : messageRetained settings rulesFetch nowIso m = false) :
    processOneMessage settings rulesFetch nowIso acc k m = acc := by
  unfold messageRetained at h
  rw [hp] at h
  simp only [Bool.or_eq_false_iff] at h
  obtain ⟨hwt, hns⟩ := h
  unfold processOneMessage
  rw [hp]
  have hnone : processEmailClassification
      { buildEmail settings nowIso pm with id := "temp" } settings rulesFetch
      m.aiOutcome = none := by
    cases hc : processEmailClassification
        { buildEmail settings nowIso pm with id := "temp" } settings rulesFetch
        m.aiOutcome with
    | none => rfl
    | some ce => rw [hc] at hns; exact absurd hns (by simp)
  simp [hwt, hnone]

theorem processOneMessage_store_unchanged {settings : Settings}
    {rulesFetch : Except String (List Rule)} {nowIso : String} {acc : PassAcc}
    {k : Nat} {m : MailMessage}
    (h : messageRetained settings rulesFetch nowIso m = false) :
    (processOneMessage settings rulesFetch nowIso acc k m).store = acc.store := by
  cases hp : m.parseResult with
  | error e => rw [processOneMessage_error hp]
  | ok pm => rw [processOneMessage_skipped hp h]

theorem runMessages_append (settings : Settings)
    (rulesFetch : Except String (List Rule)) (nowIso : String) :
    ∀ (l₁ l₂ : List MailMessage) (k : Nat) (acc : PassAcc),
    runMessages settings rulesFetch nowIso k acc (l₁ ++ l₂) =
      runMessages settings rulesFetch nowIso (k + l₁.length)
        (runMessages settings rulesFetch nowIso k acc l₁) l₂ := by
  intro l₁
  induction l₁ with
  | nil => intro l₂ k acc; simp [runMessages]
  | cons m rest ih =>
      intro l₂ k acc
      simp only [List.cons_append, runMessages, List.length_cons, List.append_eq]
      rw [ih]
      congr 1
      omega

theorem runMessages_all_retained (settings : Settings)
    (rulesFetch : Except String (List Rule)) (nowIso : String) :
    ∀ (msgs : List MailMessage) (k : Nat) (acc : PassAcc),
    (∀ m ∈ msgs, messageRetained settings rulesFetch nowIso m = true) →
    (runMessages settings rulesFetch nowIso k acc msgs).processedCount =
      acc.processedCount + msgs.length ∧
    (runMessages settings rulesFetch nowIso k acc msgs).errors = acc.errors := by
  intro msgs
  induction msgs with
  | nil => intro k acc _; simp [runMessages]
  | cons m rest ih =>
      intro k acc hall
      have hm := hall m (List.mem_cons_self m rest)
      have hrest : ∀ m' ∈ rest, messageRetained settings rulesFetch nowIso m' = true :=
        fun m' hm' => hall m' (List.mem_cons_of_mem m hm')
      simp only [runMessages, List.length_cons]
      obtain ⟨hc, he⟩ := ih (k + 1) (processOneMessage settings rulesFetch nowIso acc k m) hrest
      obtain ⟨hc1, he1⟩ :=
        @processOneMessage_retained settings rulesFetch nowIso acc k m hm
      rw [hc, he, hc1, he1]
      exact ⟨by omega, rfl⟩

theorem runMessages_none_retained (settings : Settings)
    (rulesFetch : Except String (List Rule)) (nowIso : String) :
    ∀ (msgs : List MailMessage) (k : Nat) (acc : PassAcc),
    (∀ m ∈ msgs, messageRetained settings rulesFetch nowIso m = false) →
    (runMessages settings rulesFetch nowIso k acc msgs).store = acc.store := by
  intro msgs
  induction msgs with
  | nil => intro k acc _; simp [runMessages]
  | cons m rest ih =>
      intro k acc hall
      have hm := hall m (List.mem_cons_self m rest)
      have hrest : ∀ m' ∈ rest, messageRetained settings rulesFetch nowIso m' = false :=
        fun m' hm' => hall m' (List.mem_cons_of_mem m hm')
      simp only [runMessages]
      rw [ih (k + 1) _ hrest]
      exact processOneMessage_store_unchanged hm

/-! ## More concrete fixtures -/

/-- Optimized-mode settings whose pre-built sets blacklist `spam@bad.com`. -/
def optSettings : Settings :=
  { fbSettings with whitelistMap := some ["good@x.com"]
                    blacklistMap := some ["spam@bad.com"] }

/-- An inert AI-stage outcome (AI is disabled in the fixture settings). -/
def nullAi : ClassificationResult :=
  { type := .other, confidence := 0, reasoning := "" }

/-- A fetched message from `spam@bad.com` that parses fine. -/
def spamMsg : MailMessage :=
  { uid := 11
    parseResult := .ok
      { subject := some "hello", fromText := some "Spam <spam@bad.com>"
        toText := none, dateIso := some "2024-01-01", text := some "buy now"
        html := none, attachments := [] }
    aiOutcome := nullAi }

/-- A fetched message whose `simpleParser` call throws. -/
def throwMsg : MailMessage :=
  { uid := 12, parseResult := .error "bad mime", aiOutcome := nullAi }

/-- A fetched message from an unlisted sender. -/
def plainMsg : MailMessage :=
  { uid := 13
    parseResult := .ok
      { subject := some "Quote please", fromText := some "Jane <jane@widgets.com>"
        toText := none, dateIso := some "2024-01-03", text := some "need a quote"
        html := none, attachments := [] }
    aiOutcome := nullAi }

/-- A fetched WeTransfer notification message. -/
def weTransferMsg : MailMessage :=
  { uid := 14
    parseResult := .ok
      { subject := some "sent you files"
        fromText := some "WeTransfer <noreply@wetransfer.com>"
        toText := none, dateIso := some "2024-01-01", text := some "files"
        html := none, attachments := [] }
    aiOutcome := nullAi }

/-- An active blacklist rule on `spam@bad.com`. -/
def spamRule : Rule := ⟨"r1", .blacklist, "spam@bad.com", none, true⟩

/-- An active blacklist rule on the whole `wetransfer.com` domain. -/
def wtRule : Rule := ⟨"r9", .blacklist, "wetransfer.com", none, true⟩

/-! ## C1 — blacklist exclusion invariant -/

/-- A message that (if it parses) is not WeTransfer-detected and whose sender
matches some blacklist rule and no whitelist rule of `rules`. -/
def blacklistOnlyMessage (settings : Settings) (rules : List Rule) (nowIso : String)
    (m : MailMessage) : Bool :=
  match m.parseResult with
  | .error _ => true
  | .ok pm =>
      let tempEmail := { buildEmail settings nowIso pm with id := "temp" }
      let sender := strLower (tempEmail.senderEmail.getD "")
      !isWeTransferEmail tempEmail &&
      rules.any (fun r => r.type == .blacklist && ruleMatches r sender) &&
      rules.all (fun r => !(r.type == .whitelist) || !ruleMatches r sender)

/-- C1 (corrected).  In fallback mode, a full ingestion pass over messages
that are not WeTransfer-detected and whose senders match some blacklist rule
and no whitelist rule adds nothing to the Data Store.  (The unrestricted
claim fails: the WeTransfer special case in `processEmails` bypasses routing
entirely, so a blacklisted WeTransfer sender is still stored — see the
counterexample — and a sender also matching a whitelist rule can be stored
because the fallback scan is first-match-wins.) -/
theorem C1_blacklist_exclusion (flag : Bool) (settings : Settings)
    (rules : List Rule) (nowIso : String) (store₀ : List Email)
    (msgs : List MailMessage) (hfb : usesFallback settings = true)
    (h : ∀ m ∈ msgs, blacklistOnlyMessage settings rules nowIso m = true) :
    (processEmails flag settings (.ok rules) nowIso store₀ msgs).store = store₀ := by
  have hnr : ∀ m ∈ msgs, messageRetained settings (.ok rules) nowIso m = false := by
    intro m hm
    have hbo := h m hm
    unfold blacklistOnlyMessage at hbo
    unfold messageRetained
    cases hp : m.parseResult with
    | error e => rfl
    | ok pm =>
        rw [hp] at hbo
        simp only [Bool.and_eq_true, Bool.not_eq_true'] at hbo
        obtain ⟨⟨hwt, hany⟩, hall⟩ := hbo
        have hskip : checkWhitelistStatus
            { buildEmail settings nowIso pm with id := "temp" } settings (.ok rules) =
            .skip := by
          rw [checkWhitelistStatus_fallback _ _ _ hfb]
          apply fallbackScan_skip
          · rw [List.any_eq_true] at hany
            obtain ⟨r, hr, hpr⟩ := hany
            rw [Bool.and_eq_true, beq_iff_eq] at hpr
            exact ⟨r, hr, hpr.1, hpr.2⟩
          · intro r hr hrt
            rw [List.all_eq_true] at hall
            have := hall r hr
            rw [Bool.or_eq_true, Bool.not_eq_true', Bool.not_eq_true'] at this
            rcases this with hcon | hok
            · rw [beq_eq_false_iff_ne] at hcon
              exact absurd hrt hcon
            · exact hok
        have hnone := (processEmailClassification_eq_none_iff
          { buildEmail settings nowIso pm with id := "temp" } settings (.ok rules)
          m.aiOutcome).mpr hskip
        show (isWeTransferEmail { buildEmail settings nowIso pm with id := "temp" } ||
          (processEmailClassification { buildEmail settings nowIso pm with id := "temp" }
            settings (.ok rules) m.aiOutcome).isSome) = false
        rw [hnone]
        simp only [Option.isSome_none, Bool.or_false]
        exact hwt
  unfold processEmails
  cases hemp : msgs.isEmpty with
  | true => simp
  | false =>
      simp only [Bool.false_eq_true, if_false]
      exact runMessages_none_retained settings (.ok rules) nowIso msgs 1 _ hnr

/-- C1 counterexample: a WeTransfer message whose sender matches an active
blacklist rule is nevertheless stored by the pass (classification `inbox`),
because the WeTransfer special case bypasses routing. -/
theorem C1_cex :
    wtRule.active = true ∧ wtRule.type = .blacklist ∧
    ruleMatches wtRule "noreply@wetransfer.com" = true ∧
    usesFallback fbSettings = true ∧
    ((processEmails false fbSettings (.ok [wtRule]) "2024-01-02" []
        [weTransferMsg]).store.map (fun e => e.senderEmail)) =
      [some "noreply@wetransfer.com"] ∧
    ((processEmails false fbSettings (.ok [wtRule]) "2024-01-02" []
        [weTransferMsg]).store.map (fun e => e.classification)) =
      [Classification.inbox] ∧
    (processEmails false fbSettings (.ok [wtRule]) "2024-01-02" []
        [weTransferMsg]).processedCount = 1 := by
  decide

/-- Witness for `C1_blacklist_exclusion` at concrete inputs. -/
theorem C1_witness :
    usesFallback fbSettings = true ∧
    (∀ m ∈ [spamMsg, throwMsg],
        blacklistOnlyMessage fbSettings [spamRule] "2024-01-02" m = true) ∧
    (processEmails false fbSettings (.ok [spamRule]) "2024-01-02" []
        [spamMsg, throwMsg]).store = [] :=
  ⟨by decide, by decide,
    C1_blacklist_exclusion false fbSettings [spamRule] "2024-01-02" []
      [spamMsg, throwMsg] (by decide) (by decide)⟩

/-! ## C5 — partial-failure survival -/

/-- C5 (corrected).  If exactly one message of the pass throws and every
other message is retained (parses and is not skipped by the blacklist), the
pass records exactly one error naming that message's position and UID and
returns `processedCount = N - 1`.  (The unrestricted claim fails: a skipped
blacklisted message is also not counted, so `processedCount` drops below
`N - 1` — see the counterexample.) -/
theorem C5_partial_failure (flag : Bool) (settings : Settings)
    (rulesFetch : Except String (List Rule)) (nowIso : String)
    (store₀ : List Email) (good₁ good₂ : List MailMessage) (bad : MailMessage)
    (e : String) (hbad : bad.parseResult = .error e)
    (hgood : ∀ m ∈ good₁ ++ good₂,
      messageRetained settings rulesFetch nowIso m = true) :
    (processEmails flag settings rulesFetch nowIso store₀
        (good₁ ++ bad :: good₂)).processedCount =
      (good₁ ++ bad :: good₂).length - 1 ∧
    (processEmails flag settings rulesFetch nowIso store₀
        (good₁ ++ bad :: good₂)).errors =
      [processErrorMsg (good₁.length + 1) bad.uid e] := by
  have hg1 : ∀ m ∈ good₁, messageRetained settings rulesFetch nowIso m = true :=
    fun m hm => hgood m (List.mem_append_left _ hm)
  have hg2 : ∀ m ∈ good₂, messageRetained settings rulesFetch nowIso m = true :=
    fun m hm => hgood m (List.mem_append_right _ hm)
  have hne : (good₁ ++ bad :: good₂).isEmpty = false := by
    cases good₁ <;> rfl
  unfold processEmails
  rw [hne]
  simp only [Bool.false_eq_true, if_false]
  rw [runMessages_append]
  set acc₁ := runMessages settings rulesFetch nowIso 1
    { store := store₀, processedCount := 0, errors := [] } good₁ with hacc₁
  obtain ⟨hc₁, he₁⟩ := runMessages_all_retained settings rulesFetch nowIso good₁ 1
    { store := store₀, processedCount := 0, errors := [] } hg1
  show (runMessages settings rulesFetch nowIso (1 + good₁.length) acc₁
      (bad :: good₂)).processedCount = _ ∧ _
  simp only [runMessages]
  rw [processOneMessage_error hbad]
  obtain ⟨hc₂, he₂⟩ := runMessages_all_retained settings rulesFetch nowIso good₂
    (1 + good₁.length + 1)
    { acc₁ with errors := acc₁.errors ++ [processErrorMsg (1 + good₁.length) bad.uid e] }
    hg2
  rw [hc₂, he₂]
  constructor
  · show acc₁.processedCount + good₂.length = _
    rw [← hacc₁] at hc₁
    rw [hc₁]
    simp only [List.length_append, List.length_cons]
    omega
  · show acc₁.errors ++ [processErrorMsg (1 + good₁.length) bad.uid e] = _
    rw [← hacc₁] at he₁
    rw [he₁]
    rw [Nat.add_comm 1 good₁.length]
    rfl

/-- C5 counterexample: with one blacklisted (skipped) message and one
throwing message, the pass yields one error but `processedCount = 0`,
not `N - 1 = 1` as the claim states. -/
theorem C5_cex :
    throwMsg.parseResult = .error "bad mime" ∧
    ((processEmails true optSettings (.ok []) "2024-01-02" []
        [spamMsg, throwMsg]).errors).length = 1 ∧
    (processEmails true optSettings (.ok []) "2024-01-02" []
        [spamMsg, throwMsg]).processedCount = 0 ∧
    [spamMsg, throwMsg].length - 1 = 1 := by
  refine ⟨rfl, ?_, ?_, rfl⟩ <;> decide

/-- Witness for `C5_partial_failure` at concrete inputs. -/
theorem C5_witness :
    (processEmails false fbSettings (.ok []) "2024-01-02" []
        ([plainMsg] ++ throwMsg :: [])).processedCount = 1 ∧
    (processEmails false fbSettings (.ok []) "2024-01-02" []
        ([plainMsg] ++ throwMsg :: [])).errors =
      [processErrorMsg 2 12 "bad mime"] := by
  have h := C5_partial_failure false fbSettings (.ok []) "2024-01-02" []
    [plainMsg] [] throwMsg "bad mime" rfl (by decide)
  exact ⟨by simpa using h.1, by simpa using h.2⟩

/-! ## C7 — soft stop flag -/

/-- Stopping behavior of the batch loop: if the flag reads `false` at the
first `n` checks and `true` at check `n`, the loop processes exactly the
first `n` items and returns the results accumulated so far. -/
theorem parseBatchLoop_stop (flagAt : Nat → Bool) :
    ∀ (items : List BatchItem) (n i : Nat) (acc : BatchResults),
    (∀ j, i ≤ j → j < i + n → flagAt j = false) → flagAt (i + n) = true →
    parseBatchLoop flagAt i acc items =
      parseBatchLoop (fun _ => false) i acc (items.take n) := by
  intro items
  induction items with
  | nil => intro n i acc _ _; simp [parseBatchLoop]
  | cons item rest ih =>
      intro n i acc hlow hstop
      cases n with
      | zero =>
          have : flagAt i = true := by simpa using hstop
          simp [parseBatchLoop, this]
      | succ m =>
          have hfalse : flagAt i = false := hlow i (le_refl i) (by omega)
          simp only [List.take_succ_cons, parseBatchLoop, hfalse,
            Bool.false_eq_true, if_false]
          apply ih m (i + 1)
          · intro j h1 h2
            exact hlow j (by omega) (by omega)
          · have : i + 1 + m = i + (m + 1) := by omega
            rw [this]
            exact hstop

/-- C7 (corrected).  The stop route sets both global flags and schedules the
fixed-delay reset that auto-clears them.  The flag is polled between emails
by the manual AI-parsing batch loop, which stops before processing the next
email and returns the partial results accumulated so far.  The mailbox
ingestion pass, however, never reads the flag: its result is identical for
any flag value (the claim that it stops early is refuted by the
counterexample). -/
theorem C7_soft_stop :
    (∀ s : StopState, (stopRoutePost s).shouldStopParsing = true ∧
      (stopRoutePost s).shouldStop = true ∧ (stopRoutePost s).resetPending = true) ∧
    (∀ s : StopState, (stopTimerFire (stopRoutePost s)).shouldStopParsing = false ∧
      (stopTimerFire (stopRoutePost s)).shouldStop = false) ∧
    (∀ (flagAt : Nat → Bool) (items : List BatchItem) (n : Nat) (acc : BatchResults),
      (∀ j, j < n → flagAt j = false) → flagAt n = true →
      parseBatchLoop flagAt 0 acc items =
        parseBatchLoop (fun _ => false) 0 acc (items.take n)) ∧
    (∀ (flag₁ flag₂ : Bool) (settings : Settings)
        (rulesFetch : Except String (List Rule)) (nowIso : String)
        (store : List Email) (msgs : List MailMessage),
      processEmails flag₁ settings rulesFetch nowIso store msgs =
        processEmails flag₂ settings rulesFetch nowIso store msgs) := by
  refine ⟨fun s => ⟨rfl, rfl, rfl⟩, fun s => ⟨rfl, rfl⟩, ?_, fun _ _ _ _ _ _ _ => rfl⟩
  intro flagAt items n acc hlow hstop
  apply parseBatchLoop_stop flagAt items n 0 acc
  · intro j h1 h2
    exact hlow j (by omega)
  · simpa using hstop

/-- C7 counterexample: with the stop flag set for the whole pass, the
ingestion loop still processes both messages — it does not stop before the
next message as the claim states. -/
theorem C7_cex :
    (processEmails true fbSettings (.ok []) "2024-01-02" []
        [plainMsg, weTransferMsg]).processedCount = 2 ∧
    ¬ ((processEmails true fbSettings (.ok []) "2024-01-02" []
        [plainMsg, weTransferMsg]).processedCount ≤ 1) := by
  decide

/-- Witness for `C7_soft_stop` at concrete inputs. -/
theorem C7_witness :
    parseBatchLoop (fun j => decide (1 ≤ j)) 0
      { parsed := 0, failed := 0, errors := [], parsedIds := [] }
      [⟨"e1", "s1", .ok true⟩, ⟨"e2", "s2", .ok true⟩] =
    parseBatchLoop (fun _ => false) 0
      { parsed := 0, failed := 0, errors := [], parsedIds := [] }
      ([⟨"e1", "s1", .ok true⟩, ⟨"e2", "s2", .ok true⟩].take 1) := by
  apply C7_soft_stop.2.2.1 (fun j => decide (1 ≤ j))
    [⟨"e1", "s1", .ok true⟩, ⟨"e2", "s2", .ok true⟩] 1
  · intro j hj
    have : j = 0 := by omega
    subst this
    decide
  · decide

/-! ## C9 — keyword classifier -/

theorem JsNum.toRat_scientific (m e : Nat) :
    (OfScientific.ofScientific m true e : JsNum).toRat = (m : ℚ) / ((10 ^ e : Nat) : ℚ) := by
  show ((m : Int) : ℚ) / (((10 ^ e : Nat)) : ℚ) = _
  norm_num

/-- The C9 scenario email: subject `"Quote for widgets"`. -/
def c9Email : Email :=
  { id := "1", subject := "Quote for widgets", fromField := "Jane <jane@widgets.com>"
    toField := "me@shop.com", date := "2024-01-15", body := ""
    attachments := [], parsed := none, status := .unprocessed
    classification := .pending, senderEmail := some "jane@widgets.com" }

/-- The C9 scenario settings: `estimateKeywords = "quote,estimate"`, AI off. -/
def c9Settings : Settings :=
  { username := "me@shop.com", useAiProcessing := false, aiProvider := .google
    googleApiKey := none, orderKeywords := none
    estimateKeywords := some "quote,estimate", classificationInstructions := none
    whitelistMap := none, blacklistMap := none }

/-- C9 (confirmed).  The keyword stage counts, per comma-separated list, the
non-empty keywords occurring case-insensitively in subject + body; the
higher-scoring type wins with confidence `min(0.8, 0.3 + 0.1 * hitCount)`,
and ties (including zero hits) yield `other` at confidence `0.5`.  In
particular, subject `"Quote for widgets"` with `estimateKeywords
"quote,estimate"` and AI disabled classifies as `estimate` at `0.4`,
whatever the AI stage would have answered. -/
theorem C9_keyword_scoring :
    (∀ (email : Email) (settings : Settings),
      (keywordScore (keywordContent email) (keywordList settings.orderKeywords) >
          keywordScore (keywordContent email) (keywordList settings.estimateKeywords) ∧
        keywordScore (keywordContent email) (keywordList settings.orderKeywords) > 0 →
        (classifyByKeywords email settings).type = .order ∧
        (classifyByKeywords email settings).confidence.toRat =
          min (8/10 : ℚ) (3/10 +
            keywordScore (keywordContent email) (keywordList settings.orderKeywords) * (1/10))) ∧
      (keywordScore (keywordContent email) (keywordList settings.estimateKeywords) >
          keywordScore (keywordContent email) (keywordList settings.orderKeywords) ∧
        keywordScore (keywordContent email) (keywordList settings.estimateKeywords) > 0 →
        (classifyByKeywords email settings).type = .estimate ∧
        (classifyByKeywords email settings).confidence.toRat =
          min (8/10 : ℚ) (3/10 +
            keywordScore (keywordContent email) (keywordList settings.estimateKeywords) * (1/10))) ∧
      (keywordScore (keywordContent email) (keywordList settings.orderKeywords) =
          keywordScore (keywordContent email) (keywordList settings.estimateKeywords) →
        (classifyByKeywords email settings).type = .other ∧
        (classifyByKeywords email settings).confidence.toRat = 1/2)) ∧
    (∀ ai : ClassificationResult,
      (classifyEmail c9Email c9Settings ai).type = .estimate ∧
      (classifyEmail c9Email c9Settings ai).confidence.toRat = 2/5 ∧
      (classifyEmail c9Email c9Settings ai).reasoning =
        "Found 1 estimate keywords: quote") := by
  constructor
  · intro email settings
    refine ⟨fun h => ?_, fun h => ?_, fun h => ?_⟩
    · simp only [classifyByKeywords]
      rw [if_pos h]
      refine ⟨rfl, ?_⟩
      rw [JsNum.toRat_min, JsNum.toRat_add, JsNum.toRat_mul, JsNum.toRat_natCast]
      rw [show (0.8 : JsNum) = OfScientific.ofScientific 8 true 1 from rfl,
          show (0.3 : JsNum) = OfScientific.ofScientific 3 true 1 from rfl,
          show (0.1 : JsNum) = OfScientific.ofScientific 1 true 1 from rfl,
          JsNum.toRat_scientific, JsNum.toRat_scientific, JsNum.toRat_scientific]
      norm_num
    · simp only [classifyByKeywords]
      rw [if_neg (by omega), if_pos h]
      refine ⟨rfl, ?_⟩
      rw [JsNum.toRat_min, JsNum.toRat_add, JsNum.toRat_mul, JsNum.toRat_natCast]
      rw [show (0.8 : JsNum) = OfScientific.ofScientific 8 true 1 from rfl,
          show (0.3 : JsNum) = OfScientific.ofScientific 3 true 1 from rfl,
          show (0.1 : JsNum) = OfScientific.ofScientific 1 true 1 from rfl,
          JsNum.toRat_scientific, JsNum.toRat_scientific, JsNum.toRat_scientific]
      norm_num
    · simp only [classifyByKeywords]
      rw [if_neg (by omega), if_neg (by omega)]
      refine ⟨rfl, ?_⟩
      rw [show (0.5 : JsNum) = OfScientific.ofScientific 5 true 1 from rfl,
          JsNum.toRat_scientific]
      norm_num
  · intro ai
    have hkr : classifyEmail c9Email c9Settings ai =
        classifyByKeywords c9Email c9Settings := by
      unfold classifyEmail
      rw [if_neg (by decide), if_neg (by decide), if_neg (by decide)]
    rw [hkr]
    refine ⟨by decide, ?_, by decide⟩
    have h1 : (classifyByKeywords c9Email c9Settings).confidence.toRat =
        (0.4 : JsNum).toRat := (JsNum.beq_iff _ _).mp (by decide)
    rw [h1, show (0.4 : JsNum) = OfScientific.ofScientific 4 true 1 from rfl,
        JsNum.toRat_scientific]
    norm_num

/-- Witness for `C9_keyword_scoring` at concrete inputs. -/
theorem C9_witness :
    ((classifyByKeywords c9Email c9Settings).type = .estimate ∧
      (classifyByKeywords c9Email c9Settings).confidence.toRat =
        min (8/10 : ℚ) (3/10 + keywordScore (keywordContent c9Email)
          (keywordList c9Settings.estimateKeywords) * (1/10))) ∧
    ((classifyEmail c9Email c9Settings nullAi).type = .estimate ∧
      (classifyEmail c9Email c9Settings nullAi).confidence.toRat = 2/5 ∧
      (classifyEmail c9Email c9Settings nullAi).reasoning =
        "Found 1 estimate keywords: quote") :=
  ⟨(C9_keyword_scoring.1 c9Email c9Settings).2.1 ⟨by decide, by decide⟩,
    C9_keyword_scoring.2 nullAi⟩

/-! ## Extraction lemmas -/

theorem JsNum.toRat_tenth : (0.1 : JsNum).toRat = 1/10 := by
  rw [show (0.1 : JsNum) = OfScientific.ofScientific 1 true 1 from rfl,
    JsNum.toRat_scientific]
  norm_num

theorem JsNum.toRat_ninetyfive : (0.95 : JsNum).toRat = 19/20 := by
  rw [show (0.95 : JsNum) = OfScientific.ofScientific 95 true 2 from rfl,
    JsNum.toRat_scientific]
  norm_num

/-- The final clamp of the parse-confidence computation stays in `[0.1, 0.95]`. -/
theorem clamp_toRat_bounds (x : JsNum) :
    1/10 ≤ (max (0.1 : JsNum) (min (0.95 : JsNum) x)).toRat ∧
    (max (0.1 : JsNum) (min (0.95 : JsNum) x)).toRat ≤ 19/20 := by
  rw [JsNum.toRat_max, JsNum.toRat_min, JsNum.toRat_tenth, JsNum.toRat_ninetyfive]
  exact ⟨le_max_left _ _, max_le (by norm_num) (min_le_left _ _)⟩

theorem computeParseConfidence_bounds (t : ExtractType) (parsed : Json)
    (items : List Json) :
    1/10 ≤ (computeParseConfidence t parsed items).toRat ∧
    (computeParseConfidence t parsed items).toRat ≤ 19/20 := by
  unfold computeParseConfidence
  exact clamp_toRat_bounds _

/-- Shape of a successful `parseAIParsingResponse`: the parsed object has an
items array and the confidence is the clamped completeness formula over it. -/
theorem parseAIParsingResponse_ok_shape {jp : String → Option Json} {resp : String}
    {t : ExtractType} {pd : ParsedPayload}
    (h : parseAIParsingResponse jp resp t = .ok pd) :
    ∃ items : List Json, pd.data.lookup "items" = some (.arr items) ∧
      pd.type = t ∧
      pd.confidence = computeParseConfidence t pd.data items := by
  simp only [parseAIParsingResponse] at h
  cases hjp : jp (extractJsonBlock resp) with
  | none => simp [hjp] at h
  | some parsed =>
      cases hlk : parsed.lookup "items" with
      | none => simp [hjp, hlk] at h
      | some j =>
          cases j with
          | arr items =>
              simp only [hjp, hlk] at h
              rw [Except.ok.injEq] at h
              rw [← h]
              exact ⟨items, hlk, rfl, rfl⟩
          | null => simp [hjp, hlk] at h
          | bool b => simp [hjp, hlk] at h
          | num n => simp [hjp, hlk] at h
          | str s => simp [hjp, hlk] at h
          | obj fields => simp [hjp, hlk] at h

theorem parseAIParsingResponse_ok_bounds {jp : String → Option Json} {resp : String}
    {t : ExtractType} {pd : ParsedPayload}
    (h : parseAIParsingResponse jp resp t = .ok pd) :
    1/10 ≤ pd.confidence.toRat ∧ pd.confidence.toRat ≤ 19/20 := by
  obtain ⟨items, _, _, hconf⟩ := parseAIParsingResponse_ok_shape h
  rw [hconf]
  exact computeParseConfidence_bounds t pd.data items

/-! ## C3 — extraction never throws, confidence in [0.1, 0.95] -/

/-- C3 (confirmed).  For every email, settings and environment — including a
missing API key, a malformed AI reply (`jsonParse` failing) and an
unreachable endpoint (the call erroring) — `parseEmailWithAI` returns a
record (it is a total function of the modelled outcomes) whose confidence
lies in `[0.1, 0.95]`. -/
theorem C3_extraction_never_throws (email : Email) (settings : Settings)
    (saveFiles : Bool) (env : ExtractionEnv) :
    1/10 ≤ (parseEmailWithAI email settings saveFiles env).confidence.toRat ∧
    (parseEmailWithAI email settings saveFiles env).confidence.toRat ≤ 19/20 := by
  have hfb : ∀ e : String,
      1/10 ≤ (fallbackParsedData email e).confidence.toRat ∧
      (fallbackParsedData email e).confidence.toRat ≤ 19/20 := by
    intro e
    have hc : (fallbackParsedData email e).confidence = (0.1 : JsNum) := rfl
    rw [hc, JsNum.toRat_tenth]
    norm_num
  simp only [parseEmailWithAI]
  cases hai : aiCallResult settings env with
  | error e => dsimp only; exact hfb e
  | ok resp =>
      dsimp only
      cases hpr : parseAIParsingResponse env.jsonParse resp
          (resolveExpectedType email) with
      | error e => dsimp only; exact hfb e
      | ok pd => dsimp only; exact parseAIParsingResponse_ok_bounds hpr

/-! ## C4 — failure yields the deterministic fallback record -/

theorem createFallbackOrderData_lookup (email : Email) :
    (createFallbackOrderData email).lookup "rushOrder" =
      some (.bool (strContains (strLower email.subject) "rush")) ∧
    (createFallbackOrderData email).lookup "specialInstructions" =
      some (.str (jsSubstring email.body 0 500)) ∧
    (createFallbackOrderData email).lookup "items" =
      some (.arr [Json.obj
        [("description", Json.str ("Order from email: " ++ email.subject)),
         ("quantity", Json.num 1)]]) := by
  unfold createFallbackOrderData
  cases extractCustomerName email.fromField with
  | none =>
      cases email.senderEmail with
      | none => exact ⟨rfl, rfl, rfl⟩
      | some s =>
          dsimp only
          by_cases h3 : s.isEmpty = true
          · rw [if_pos h3]; exact ⟨rfl, rfl, rfl⟩
          · rw [if_neg h3]; exact ⟨rfl, rfl, rfl⟩
  | some n =>
      cases email.senderEmail with
      | none => exact ⟨rfl, rfl, rfl⟩
      | some s =>
          dsimp only
          by_cases h3 : s.isEmpty = true
          · rw [if_pos h3]; exact ⟨rfl, rfl, rfl⟩
          · rw [if_neg h3]; exact ⟨rfl, rfl, rfl⟩

theorem createFallbackEstimateData_lookup (email : Email) :
    (createFallbackEstimateData email).lookup "notes" =
      some (.str (jsSubstring email.body 0 500)) ∧
    (createFallbackEstimateData email).lookup "projectDescription" =
      some (.str email.subject) := by
  unfold createFallbackEstimateData
  cases extractCustomerName email.fromField with
  | none =>
      cases email.senderEmail with
      | none => exact ⟨rfl, rfl⟩
      | some s =>
          dsimp only
          by_cases h3 : s.isEmpty = true
          · rw [if_pos h3]; exact ⟨rfl, rfl⟩
          · rw [if_neg h3]; exact ⟨rfl, rfl⟩
  | some n =>
      cases email.senderEmail with
      | none => exact ⟨rfl, rfl⟩
      | some s =>
          dsimp only
          by_cases h3 : s.isEmpty = true
          · rw [if_pos h3]; exact ⟨rfl, rfl⟩
          · rw [if_neg h3]; exact ⟨rfl, rfl⟩

/-- C4 (corrected).  On failure of the AI call or of the reply parse,
`parseEmailWithAI` does not propagate and returns the deterministic fallback
record: the type resolved in step 1, placeholder data built purely from email
metadata (with `rushOrder` set iff the subject contains "rush" and
body-derived notes truncated to 500 characters), confidence fixed at 0.1,
reasoning carrying the underlying error text, and `attachmentsSaved = []`.
(The claim's further assertion that an archiving failure also yields the
fallback record is refuted by the counterexample: a file-save failure is
absorbed and the successfully parsed record is returned with
`attachmentsSaved = []` and its real confidence.) -/
theorem C4_failure_fallback :
    (∀ (email : Email) (settings : Settings) (saveFiles : Bool)
        (env : ExtractionEnv) (e : String),
      aiCallResult settings env = .error e →
      parseEmailWithAI email settings saveFiles env = fallbackParsedData email e) ∧
    (∀ (email : Email) (settings : Settings) (saveFiles : Bool)
        (env : ExtractionEnv) (resp e : String),
      aiCallResult settings env = .ok resp →
      parseAIParsingResponse env.jsonParse resp (resolveExpectedType email) =
        .error e →
      parseEmailWithAI email settings saveFiles env = fallbackParsedData email e) ∧
    (∀ (email : Email) (e : String),
      (fallbackParsedData email e).type = resolveExpectedType email ∧
      (fallbackParsedData email e).confidence.toRat = 1/10 ∧
      (fallbackParsedData email e).reasoning = "AI parsing failed: " ++ e ∧
      (fallbackParsedData email e).attachmentsSaved = [] ∧
      (fallbackParsedData email e).emailFiles = none ∧
      (resolveExpectedType email = .order →
        (fallbackParsedData email e).data = createFallbackOrderData email) ∧
      (resolveExpectedType email = .estimate →
        (fallbackParsedData email e).data = createFallbackEstimateData email)) ∧
    (∀ email : Email,
      (createFallbackOrderData email).lookup "rushOrder" =
        some (.bool (strContains (strLower email.subject) "rush")) ∧
      (createFallbackOrderData email).lookup "specialInstructions" =
        some (.str (jsSubstring email.body 0 500)) ∧
      (createFallbackEstimateData email).lookup "notes" =
        some (.str (jsSubstring email.body 0 500)) ∧
      (jsSubstring email.body 0 500).data.length ≤ 500) := by
  refine ⟨?_, ?_, ?_, ?_⟩
  · intro email settings saveFiles env e hai
    simp [parseEmailWithAI, hai]
  · intro email settings saveFiles env resp e hai hpr
    simp [parseEmailWithAI, hai, hpr]
  · intro email e
    refine ⟨rfl, ?_, rfl, rfl, rfl, fun h => ?_, fun h => ?_⟩
    · have hc : (fallbackParsedData email e).confidence = (0.1 : JsNum) := rfl
      rw [hc, JsNum.toRat_tenth]
    · simp [fallbackParsedData, h]
    · simp [fallbackParsedData, h]
  · intro email
    obtain ⟨h1, h2, _⟩ := createFallbackOrderData_lookup email
    obtain ⟨h3, _⟩ := createFallbackEstimateData_lookup email
    refine ⟨h1, h2, h3, ?_⟩
    show ((email.body.data.drop 0).take 500).length ≤ 500
    rw [List.length_take]
    exact min_le_left _ _

/-- The C4/C8 counterexample environment: AI succeeds, the reply parses to a
complete order object, and the file archiver throws. -/
def c4Json : Json :=
  .obj [("customerName", .str "Acme"),
        ("items", .arr [.obj [("description", .str "5 signs"),
                              ("quantity", .num 5)]])]

def c4Email : Email :=
  { id := "1", subject := "order 77", fromField := "Acme Co <orders@acme.com>"
    toField := "t", date := "2024-01-05", body := "please print"
    attachments := [], parsed := some ⟨.order, none, 0.5⟩
    status := .unprocessed, classification := .pending
    senderEmail := some "orders@acme.com" }

def c4Settings : Settings := { fbSettings with googleApiKey := some "key" }

def c4Env : ExtractionEnv :=
  { refetchResult := .error "imap down", googleResponse := .ok "{}"
    ollamaResponse := .error "no daemon", jsonParse := fun _ => some c4Json
    saveFilesResult := .error "disk full", saveParsedJsonResult := .error "not reached" }

/-- C4 counterexample: with a successful AI call and parse but a failing
archive step, the result is the parsed record (confidence 0.95, success
reasoning), not the fallback record with confidence fixed at 0.1 that the
claim requires for any step 2–6 failure. -/
theorem C4_cex :
    c4Env.saveFilesResult = .error "disk full" ∧
    aiCallResult c4Settings c4Env = .ok "{}" ∧
    (parseEmailWithAI c4Email c4Settings true c4Env).confidence.toRat = 19/20 ∧
    (1/10 : ℚ) ≠ 19/20 ∧
    (parseEmailWithAI c4Email c4Settings true c4Env).reasoning =
      "Successfully parsed 1 items with 2/2 required fields" ∧
    (parseEmailWithAI c4Email c4Settings true c4Env).attachmentsSaved = [] := by
  refine ⟨rfl, rfl, ?_, by norm_num, by decide, by decide⟩
  have h := (JsNum.beq_iff
    ((parseEmailWithAI c4Email c4Settings true c4Env).confidence)
    (0.95 : JsNum)).mp (by decide)
  rw [h, JsNum.toRat_ninetyfive]

/-- Witness for `C4_failure_fallback` at concrete inputs. -/
theorem C4_witness :
    aiCallResult fbSettings c4Env = .error "Google API key not configured" ∧
    parseEmailWithAI c4Email fbSettings true c4Env =
      fallbackParsedData c4Email "Google API key not configured" :=
  ⟨rfl, C4_failure_fallback.1 c4Email fbSettings true c4Env
    "Google API key not configured" rfl⟩

/-! ## C8 — confidence monotonicity -/

theorem JsNum.toRat_threeTenths : (0.3 : JsNum).toRat = 3/10 := by
  rw [show (0.3 : JsNum) = OfScientific.ofScientific 3 true 1 from rfl,
    JsNum.toRat_scientific]
  norm_num

theorem JsNum.toRat_sixTenths : (0.6 : JsNum).toRat = 6/10 := by
  rw [show (0.6 : JsNum) = OfScientific.ofScientific 6 true 1 from rfl,
    JsNum.toRat_scientific]
  norm_num

theorem requiredFields_length_pos (t : ExtractType) :
    0 < (requiredFields t).length := by
  cases t <;> decide

/-- The parse confidence, expressed over `ℚ`. -/
theorem computeParseConfidence_toRat (t : ExtractType) (parsed : Json)
    (items : List Json) :
    (computeParseConfidence t parsed items).toRat =
      max (1/10 : ℚ) (min (19/20)
        (min (19/20) (3/10 + (((presentFields t parsed).length : ℚ) /
            ((requiredFields t).length : ℚ)) * (6/10)) +
          (if items.length > 0 && firstItemHasDescription items then (1/10 : ℚ)
           else 0))) := by
  have hden : (0 : Int) < (((requiredFields t).length : JsNum)).num := by
    have h := requiredFields_length_pos t
    show (0 : Int) < ((requiredFields t).length : Int)
    exact_mod_cast h
  simp only [computeParseConfidence]
  by_cases hb : (items.length > 0 && firstItemHasDescription items) = true
  · rw [if_pos hb, if_pos hb, JsNum.toRat_max, JsNum.toRat_min, JsNum.toRat_add,
      JsNum.toRat_min, JsNum.toRat_add, JsNum.toRat_mul,
      JsNum.toRat_div _ _ hden, JsNum.toRat_natCast, JsNum.toRat_natCast,
      JsNum.toRat_tenth, JsNum.toRat_ninetyfive, JsNum.toRat_threeTenths,
      JsNum.toRat_sixTenths]
  · rw [if_neg hb, if_neg hb, JsNum.toRat_max, JsNum.toRat_min, JsNum.toRat_min,
      JsNum.toRat_add, JsNum.toRat_mul, JsNum.toRat_div _ _ hden,
      JsNum.toRat_natCast, JsNum.toRat_natCast, JsNum.toRat_tenth,
      JsNum.toRat_ninetyfive, JsNum.toRat_threeTenths, JsNum.toRat_sixTenths,
      add_zero]

/-- Monotonicity of the clamped completeness formula in the number of present
required fields, whatever the two description bonuses are. -/
theorem conf_formula_mono {n kA kB : ℕ} (bA bB : ℚ)
    (hn : n = 2 ∨ n = 3) (hk : kA < kB) (hkn : kB ≤ n)
    (hbA : bA = 0 ∨ bA = 1/10) (hbB : bB = 0 ∨ bB = 1/10) :
    max (1/10 : ℚ) (min (19/20)
        (min (19/20) (3/10 + ((kA : ℚ)/(n : ℚ)) * (6/10)) + bA)) ≤
    max (1/10 : ℚ) (min (19/20)
        (min (19/20) (3/10 + ((kB : ℚ)/(n : ℚ)) * (6/10)) + bB)) := by
  rcases hn with hn | hn <;> subst hn <;>
    interval_cases kB <;> interval_cases kA <;>
    rcases hbA with hbA | hbA <;> subst hbA <;>
    rcases hbB with hbB | hbB <;> subst hbB <;>
    norm_num [min_def, max_def]

/-- A strict superset of populated required fields has strictly more of them
(the required-field lists have no duplicates). -/
theorem presentFields_length_lt (t : ExtractType) {pA pB : Json}
    (hsub : ∀ f ∈ presentFields t pA, f ∈ presentFields t pB)
    (f₀ : String) (hf₀B : f₀ ∈ presentFields t pB)
    (hf₀A : f₀ ∉ presentFields t pA) :
    (presentFields t pA).length < (presentFields t pB).length := by
  have hnd : (requiredFields t).Nodup := by cases t <;> decide
  have hpn : (presentFields t pA).Nodup := hnd.filter _
  have hqn : (presentFields t pB).Nodup := hnd.filter _
  have hfin : (presentFields t pA).toFinset ⊆ (presentFields t pB).toFinset := by
    intro a ha
    rw [List.mem_toFinset] at ha ⊢
    exact hsub a ha
  have hss : (presentFields t pA).toFinset ⊂ (presentFields t pB).toFinset := by
    rw [Finset.ssubset_def]
    refine ⟨hfin, fun hback => hf₀A ?_⟩
    exact List.mem_toFinset.mp (hback (List.mem_toFinset.mpr hf₀B))
  have hcard := Finset.card_lt_card hss
  rwa [List.toFinset_card_of_nodup hpn, List.toFinset_card_of_nodup hqn] at hcard

theorem computeParseConfidence_mono (t : ExtractType) {pA pB : Json}
    (itemsA itemsB : List Json)
    (hlen : (presentFields t pA).length < (presentFields t pB).length) :
    (computeParseConfidence t pA itemsA).toRat ≤
      (computeParseConfidence t pB itemsB).toRat := by
  rw [computeParseConfidence_toRat, computeParseConfidence_toRat]
  have hkb : (presentFields t pB).length ≤ (requiredFields t).length :=
    List.length_filter_le _ _
  have hn : (requiredFields t).length = 2 ∨ (requiredFields t).length = 3 := by
    cases t
    · left; rfl
    · right; rfl
  exact conf_formula_mono _ _ hn hlen hkb
    (by split <;> simp) (by split <;> simp)

/-- C8 (confirmed).  For two successfully parsed replies of the same target
type, if the populated required fields of B form a strict superset of those
of A, B's computed confidence is at least A's. -/
theorem C8_confidence_monotonicity (t : ExtractType)
    (jpA jpB : String → Option Json) (respA respB : String)
    (rA rB : ParsedPayload)
    (hA : parseAIParsingResponse jpA respA t = .ok rA)
    (hB : parseAIParsingResponse jpB respB t = .ok rB)
    (hsub : ∀ f ∈ presentFields t rA.data, f ∈ presentFields t rB.data)
    (hstrict : ∃ f, f ∈ presentFields t rB.data ∧ f ∉ presentFields t rA.data) :
    rA.confidence.toRat ≤ rB.confidence.toRat := by
  obtain ⟨itemsA, _, _, hcA⟩ := parseAIParsingResponse_ok_shape hA
  obtain ⟨itemsB, _, _, hcB⟩ := parseAIParsingResponse_ok_shape hB
  rw [hcA, hcB]
  obtain ⟨f₀, hf₀B, hf₀A⟩ := hstrict
  exact computeParseConfidence_mono t itemsA itemsB
    (presentFields_length_lt t hsub f₀ hf₀B hf₀A)

def c8JsonA : Json := .obj [("items", .arr [])]

def c8JsonB : Json := .obj [("customerName", .str "Acme"), ("items", .arr [])]

def c8PayloadA : ParsedPayload :=
  { type := .order, data := c8JsonA
    confidence := computeParseConfidence .order c8JsonA []
    reasoning := "Successfully parsed 0 items with 1/2 required fields" }

def c8PayloadB : ParsedPayload :=
  { type := .order, data := c8JsonB
    confidence := computeParseConfidence .order c8JsonB []
    reasoning := "Successfully parsed 0 items with 2/2 required fields" }

/-- Witness for `C8_confidence_monotonicity` at concrete inputs. -/
theorem C8_witness :
    parseAIParsingResponse (fun _ => some c8JsonA) "{}" .order = .ok c8PayloadA ∧
    parseAIParsingResponse (fun _ => some c8JsonB) "{}" .order = .ok c8PayloadB ∧
    c8PayloadA.confidence.toRat ≤ c8PayloadB.confidence.toRat := by
  refine ⟨rfl, rfl, ?_⟩
  exact C8_confidence_monotonicity .order (fun _ => some c8JsonA)
    (fun _ => some c8JsonB) "{}" "{}" c8PayloadA c8PayloadB rfl rfl
    (by decide) ⟨"customerName", by decide, by decide⟩

/-! ## C6 — single-job invariant -/

/-- Every running job in the map is the one the `currentJob` slot holds. -/
def jobRunningInv (s : JobState) : Prop :=
  ∀ j ∈ s.jobs, j.status = .running → s.currentJob = some j

theorem updateJob_mem {s : JobState} {id : Nat} {f : Job → Job} {x : Job}
    (hx : x ∈ (updateJob s id f).jobs) :
    (x ∈ s.jobs ∧ (x.id == id) = false) ∨
    (∃ j₀, s.jobs.find? (fun j => j.id == id) = some j₀ ∧ x = f j₀) := by
  unfold updateJob at hx
  cases hfind : s.jobs.find? (fun j => j.id == id) with
  | none =>
      rw [hfind] at hx
      left
      exact ⟨hx, Bool.eq_false_iff.mpr (List.find?_eq_none.mp hfind x hx)⟩
  | some j₀ =>
      rw [hfind] at hx
      dsimp only at hx
      rw [List.mem_map] at hx
      obtain ⟨k, hk, hkx⟩ := hx
      by_cases hid : (k.id == id) = true
      · right
        exact ⟨j₀, rfl, by rw [← hkx, if_pos hid]⟩
      · left
        rw [if_neg hid] at hkx
        subst hkx
        exact ⟨hk, Bool.eq_false_iff.mpr hid⟩

theorem updateJob_current_nofind {s : JobState} {id : Nat} {f : Job → Job}
    (hfind : s.jobs.find? (fun j => j.id == id) = none) :
    (updateJob s id f).currentJob = s.currentJob := by
  unfold updateJob
  rw [hfind]

theorem updateJob_current {s : JobState} {id : Nat} {f : Job → Job} {j₀ : Job}
    (hfind : s.jobs.find? (fun j => j.id == id) = some j₀) {c : Job}
    (hc : s.currentJob = some c) :
    (updateJob s id f).currentJob =
      if (c.id == id) = true then some (f j₀) else some c := by
  unfold updateJob
  rw [hfind]
  dsimp only
  rw [hc]

/-- `updateJob` preserves the invariant whenever the update cannot turn a
non-running job into a running one. -/
theorem jobInv_updateJob {s : JobState} {id : Nat} {f : Job → Job}
    (hs : jobRunningInv s)
    (hrun : ∀ j, (f j).status = .running → j.status = .running) :
    jobRunningInv (updateJob s id f) := by
  intro x hx hxr
  rcases updateJob_mem hx with ⟨hk, hkid⟩ | ⟨j₀, hfind, hxj⟩
  · have hcur := hs x hk hxr
    cases hfindc : s.jobs.find? (fun j => j.id == id) with
    | none => rw [updateJob_current_nofind hfindc, hcur]
    | some j₀ =>
        rw [updateJob_current hfindc hcur, if_neg (by simp [hkid])]
  · subst hxj
    have hj₀r := hrun j₀ hxr
    have hj₀mem : j₀ ∈ s.jobs := List.mem_of_find?_eq_some hfind
    have hcur := hs j₀ hj₀mem hj₀r
    have hid : (j₀.id == id) = true := by
      simpa using List.find?_some hfind
    rw [updateJob_current hfind hcur, if_pos hid]

theorem jobInv_init : jobRunningInv initJobState := by
  intro j hj _
  simp [initJobState] at hj

theorem jobInv_progress {s : JobState} {id : Nat} {op : String} {p : JsNum}
    {total processed : Option Nat} (hs : jobRunningInv s) :
    jobRunningInv (progressUpdate s id op p total processed) :=
  jobInv_updateJob hs (fun _ h => h)

theorem jobInv_cleanup {s : JobState} (hs : jobRunningInv s) :
    jobRunningInv (cleanupJobs s) := by
  simp only [cleanupJobs]
  split
  · intro j hj hjr
    exact hs j (List.mem_of_mem_filter hj) hjr
  · exact hs

theorem jobInv_finish {s : JobState} {ok : Bool} {res : Nat × List String}
    {err : String} {time : Nat} (hs : jobRunningInv s) :
    jobRunningInv (finishJob s ok res err time) := by
  unfold finishJob
  cases hc : s.currentJob with
  | none => exact hs
  | some c =>
      intro x hx hxr
      exfalso
      rcases updateJob_mem hx with ⟨hk, hkid⟩ | ⟨j₀, hfind, hxj⟩
      · have hcur := hs x hk hxr
        rw [hc] at hcur
        injection hcur with hcur
        subst hcur
        simp at hkid
      · subst hxj
        cases ok with
        | true => simp at hxr
        | false => simp at hxr

theorem cleanupJobs_currentJob (s : JobState) :
    (cleanupJobs s).currentJob = s.currentJob := by
  simp only [cleanupJobs]
  split <;> rfl

theorem cleanupJobs_jobs_subset {s : JobState} {j : Job}
    (hj : j ∈ (cleanupJobs s).jobs) : j ∈ s.jobs := by
  simp only [cleanupJobs] at hj
  split at hj
  · exact List.mem_of_mem_filter hj
  · exact hj

theorem processJobSync_not_running {s : JobState} {job : Job}
    (h : currentRunning s = false) :
    processJobSync s job = { s with currentJob := some job } := by
  unfold processJobSync
  rw [h]
  simp

/-- `markRunning` keeps the invariant when the slot already holds the job
being started and no job is running yet. -/
theorem jobInv_markRunning (s : JobState) (id time : Nat) (c : Job)
    (hc : s.currentJob = some c) (hcid : (c.id == id) = true)
    (hnorun : ∀ k ∈ s.jobs, k.status ≠ .running) :
    jobRunningInv (markRunning s id time) := by
  unfold markRunning
  intro x hx hxr
  rcases updateJob_mem hx with ⟨hk, hkid⟩ | ⟨j₀, hfind, hxj⟩
  · exact absurd hxr (hnorun x hk)
  · subst hxj
    rw [updateJob_current hfind hc, if_pos hcid]

/-- The serialized accept path — slot-take, cleanup, then the `running`
transition — keeps the invariant when nothing is running beforehand. -/
theorem jobInv_syncStart (s₁ : JobState) (job : Job) (time : Nat)
    (hcr : currentRunning s₁ = false)
    (hnorun : ∀ k ∈ s₁.jobs, k.status ≠ .running) :
    jobRunningInv (markRunning (cleanupJobs (processJobSync s₁ job)) job.id time) := by
  rw [processJobSync_not_running hcr]
  refine jobInv_markRunning _ _ _ job ?_ (by simp) ?_
  · rw [cleanupJobs_currentJob]
  · intro k hk
    have hk' := cleanupJobs_jobs_subset hk
    exact hnorun k hk'

theorem jobInv_postThenStart (q : QueueState) (v hset : Bool) (t : JobType)
    (time : Nat) (hinv : jobRunningInv q.st) :
    jobRunningInv (postThenStart q v hset t time).st := by
  unfold postThenStart postJobs
  by_cases hv : (!v) = true
  · rw [if_pos hv]; exact hinv
  rw [if_neg hv]
  by_cases hs2 : (!hset) = true
  · rw [if_pos hs2]; exact hinv
  rw [if_neg hs2]
  by_cases hrun : currentRunning q.st = true
  · rw [if_pos hrun]; exact hinv
  rw [if_neg hrun]
  have hfalse : currentRunning q.st = false := by
    cases hb : currentRunning q.st with
    | true => exact absurd hb hrun
    | false => rfl
  show jobRunningInv (startResume
    ⟨cleanupJobs (processJobSync (createJob q.st t).2 (createJob q.st t).1),
     q.pendingStarts ++ [(createJob q.st t).1.id]⟩ (createJob q.st t).1.id time).st
  unfold startResume
  refine jobInv_syncStart _ _ _ hfalse ?_
  intro k hk
  have hk' : k ∈ q.st.jobs ++ [(createJob q.st t).1] := hk
  rw [List.mem_append] at hk'
  rcases hk' with hk' | hk'
  · intro hkr
    have hcur := hinv k hk' hkr
    have htrue : currentRunning q.st = true := by
      unfold currentRunning
      rw [hcur]
      simp [hkr]
    rw [htrue] at hfalse
    exact absurd hfalse (by decide)
  · rw [List.mem_singleton] at hk'
    subst hk'
    intro hkr
    exact absurd hkr (by simp [createJob])

/-- Under the serialized schedule, every running job is the slot's job. -/
theorem sInv_reachable {q : QueueState} (h : SReachable q) : jobRunningInv q.st := by
  induction h with
  | init => exact jobInv_init
  | step hprev hstep ih =>
      cases hstep with
      | post v hset t time => exact jobInv_postThenStart _ v hset t time ih
      | finish ok res err time => exact jobInv_finish ih
      | progress id op p total processed => exact jobInv_progress ih
      | cleanup => exact jobInv_cleanup ih

/-- An accepted submission parks its job's start. -/
theorem postJobs_accepted_mem {q : QueueState} {v hset : Bool} {t : JobType}
    {id : Nat} {q₁ : QueueState}
    (h : postJobs q v hset t = (.accepted id, q₁)) : id ∈ q₁.pendingStarts := by
  unfold postJobs at h
  by_cases hv : (!v) = true
  · rw [if_pos hv] at h
    exact absurd h (by simp)
  rw [if_neg hv] at h
  by_cases hs2 : (!hset) = true
  · rw [if_pos hs2] at h
    exact absurd h (by simp)
  rw [if_neg hs2] at h
  by_cases hrun : currentRunning q.st = true
  · rw [if_pos hrun] at h
    exact absurd h (by simp)
  rw [if_neg hrun] at h
  simp only [createJob] at h
  injection h with h1 h2
  injection h1 with h1
  subst h1
  rw [← h2]
  simp

/-- Each serialized step is one or two interleaved steps, so serialized
states are reachable by the interleaved semantics. -/
theorem sReachable_qReachable {q : QueueState} (h : SReachable q) :
    QReachable q := by
  induction h with
  | init => exact QReachable.init
  | step hprev hstep ih =>
      cases hstep with
      | post v hset t time =>
          unfold postThenStart
          rcases hpost : postJobs _ v hset t with ⟨out, q₁⟩
          have hq₁ : QReachable q₁ := by
            have hs := QReachable.step ih (QStep.post _ v hset t)
            rw [hpost] at hs
            exact hs
          cases out with
          | accepted id =>
              exact QReachable.step hq₁
                (QStep.start q₁ id time (postJobs_accepted_mem hpost))
          | badRequest => exact hq₁
          | conflict => exact hq₁
      | finish ok res err time => exact QReachable.step ih (QStep.finish _ ok res err time)
      | progress id op p total processed =>
          exact QReachable.step ih (QStep.progress _ id op p total processed)
      | cleanup => exact QReachable.step ih (QStep.cleanup _)

/-- `cleanupJobs` is the identity while at most 10 jobs are finished. -/
theorem cleanupJobs_small {s : JobState}
    (h : (s.jobs.filter
      (fun j => j.status == JobStatus.completed || j.status == JobStatus.failed)).length ≤ 10) :
    cleanupJobs s = s := by
  simp only [cleanupJobs]
  rw [if_neg]
  rw [not_lt]
  have hp : List.Perm
      ((s.jobs.mergeSort
        (fun a b => (b.startTime.getD 0) ≤ (a.startTime.getD 0))).filter
        (fun j => j.status == JobStatus.completed || j.status == JobStatus.failed))
      (s.jobs.filter
        (fun j => j.status == JobStatus.completed || j.status == JobStatus.failed)) :=
    (List.mergeSort_perm s.jobs _).filter _
  rw [hp.length_eq]
  exact h

/-- The pending jobs the first and second accepted submissions create. -/
def pend0 : Job :=
  { id := 0, type := .emailProcessing, status := .pending, progress := 0
    startTime := none, endTime := none, result := none, error := none
    currentOperation := none, totalEmails := none, processedEmails := none }

def pend1 : Job := { pend0 with id := 1 }

/-- `pend0` after its parked start resumed at time 2. -/
def runA : Job := { pend0 with status := .running, startTime := some 2 }

/-- `pend1` after its parked start resumed at time 3. -/
def runB : Job := { pend1 with status := .running, startTime := some 3 }

/-- `pend0` after a serialized start at time 0. -/
def wRun : Job := { pend0 with status := .running, startTime := some 0 }

/-- The state one serialized submission reaches. -/
def qOne : QueueState := ⟨⟨[wRun], some wRun, 1⟩, []⟩

/-- The interleaved end state: both jobs running. -/
def qDouble : QueueState := ⟨⟨[runA, runB], some runB, 2⟩, []⟩

/-- C6 (corrected).  The route guard rejects with 409 and zero mutation
whenever the `currentJob` slot holds a `running` job; and under the
serialized schedule — each accepted submission's parked `running` transition
fires before the next event, a schedule the interleaved semantics contains —
every running job is the slot's job, so at most one job is `running` and any
submission made while a job runs is rejected with the state unchanged.  The
unrestricted instant-wise claim is refuted by `C6_cex`: the `await` between
taking the slot and turning the job `running` lets a second POST pass both
`status === 'running'` guards, reaching a state with two running jobs. -/
theorem C6_serialized_single_job :
    (∀ (q : QueueState) (t : JobType),
      currentRunning q.st = true → postJobs q true true t = (.conflict, q)) ∧
    (∀ q : QueueState, SReachable q → QReachable q) ∧
    (∀ q : QueueState, SReachable q →
      ∀ j₁ ∈ q.st.jobs, ∀ j₂ ∈ q.st.jobs,
        j₁.status = .running → j₂.status = .running → j₁ = j₂) ∧
    (∀ (q : QueueState) (t : JobType) (j : Job), SReachable q →
      j ∈ q.st.jobs → j.status = .running →
      postJobs q true true t = (.conflict, q)) := by
  refine ⟨?_, fun q h => sReachable_qReachable h, ?_, ?_⟩
  · intro q t hcr
    unfold postJobs
    rw [if_neg (by simp), if_neg (by simp), if_pos hcr]
  · intro q hreach j₁ h₁ j₂ h₂ hr₁ hr₂
    have hinv := sInv_reachable hreach
    have e₂ := hinv j₂ h₂ hr₂
    rw [hinv j₁ h₁ hr₁] at e₂
    exact Option.some.inj e₂
  · intro q t j hreach hj hjr
    have hinv := sInv_reachable hreach
    have hcr : currentRunning q.st = true := by
      unfold currentRunning
      rw [hinv j hj hjr]
      simp [hjr]
    unfold postJobs
    rw [if_neg (by simp), if_neg (by simp), if_pos hcr]

/-- C6 counterexample: interleaving two submissions inside the `await`
window — POST A (slot-take, park), POST B (guard sees A still `pending`,
accepted, slot-take, park), A's start resumes, B's start resumes — reaches a
module state with two distinct `running` jobs, refuting "at most one job is
'running' system-wide at any instant". -/
theorem C6_cex :
    QReachable qDouble ∧
    runA ∈ qDouble.st.jobs ∧ runB ∈ qDouble.st.jobs ∧
    runA ≠ runB ∧ runA.status = .running ∧ runB.status = .running := by
  have h1 : (postJobs initQueueState true true .emailProcessing).2 =
      (⟨⟨[pend0], some pend0, 1⟩, [0]⟩ : QueueState) := by
    show (⟨cleanupJobs ⟨[pend0], some pend0, 1⟩, [0]⟩ : QueueState) =
      (⟨⟨[pend0], some pend0, 1⟩, [0]⟩ : QueueState)
    rw [cleanupJobs_small (by decide)]
  have r1 : QReachable (⟨⟨[pend0], some pend0, 1⟩, [0]⟩ : QueueState) := by
    rw [← h1]
    exact QReachable.step QReachable.init
      (QStep.post initQueueState true true .emailProcessing)
  have h2 : (postJobs (⟨⟨[pend0], some pend0, 1⟩, [0]⟩ : QueueState)
        true true .emailProcessing).2 =
      (⟨⟨[pend0, pend1], some pend1, 2⟩, [0, 1]⟩ : QueueState) := by
    show (⟨cleanupJobs ⟨[pend0, pend1], some pend1, 2⟩, [0, 1]⟩ : QueueState) =
      (⟨⟨[pend0, pend1], some pend1, 2⟩, [0, 1]⟩ : QueueState)
    rw [cleanupJobs_small (by decide)]
  have r2 : QReachable (⟨⟨[pend0, pend1], some pend1, 2⟩, [0, 1]⟩ : QueueState) := by
    rw [← h2]
    exact QReachable.step r1
      (QStep.post ⟨⟨[pend0], some pend0, 1⟩, [0]⟩ true true .emailProcessing)
  have r3 : QReachable (⟨⟨[runA, pend1], some pend1, 2⟩, [1]⟩ : QueueState) :=
    QReachable.step r2
      (QStep.start ⟨⟨[pend0, pend1], some pend1, 2⟩, [0, 1]⟩ 0 2 (by decide))
  have r4 : QReachable qDouble :=
    QReachable.step r3
      (QStep.start ⟨⟨[runA, pend1], some pend1, 2⟩, [1]⟩ 1 3 (by decide))
  refine ⟨r4, by simp [qDouble], by simp [qDouble], ?_, rfl, rfl⟩
  intro h
  exact absurd (congrArg Job.id h) (by decide)

/-- Witness for `C6_serialized_single_job` at a concrete serialized state. -/
theorem C6_witness :
    postJobs qOne true true .emailProcessing = (.conflict, qOne) := by
  have h1 : postThenStart initQueueState true true .emailProcessing 0 = qOne := by
    show (startResume ⟨cleanupJobs ⟨[pend0], some pend0, 1⟩, [0]⟩ 0 0 : QueueState) = qOne
    rw [cleanupJobs_small (by decide)]
    rfl
  have hreach : SReachable qOne := by
    rw [← h1]
    exact SReachable.step SReachable.init
      (SStep.post initQueueState true true .emailProcessing 0)
  have hmem : wRun ∈ qOne.st.jobs := by simp [qOne]
  exact C6_serialized_single_job.2.2.2 qOne .emailProcessing wRun hreach hmem rfl

end ParseFlow
